import Mathlib

/-!
# Verification of the screenshot-processing pipeline (ProcessingHelper)

Shallow embedding, in Lean 4, of the extraction-and-synthesis pipeline of the
repository (the `ProcessingHelper` class): the response-parsing helpers
(`JSON.parse` fallback chains, fenced-code-block extraction, complexity
normalization), the MCQ helpers (`parseMCQResponse`, `validateAndFixMCQFormat`,
`extractQuestionsFromText`, `extractOptionsFromText`), and the
request-lifecycle / orchestration logic of `processScreenshots`,
`processScreenshotsHelper`, `generateSolutionsHelper` and
`cancelOngoingRequests`.

Strings are modeled as `List Char`.  JavaScript regular expressions are modeled
by a small backtracking engine (`RE`) into which each source pattern is
transliterated, except for a few patterns simple enough to model directly
(those models are justified in their doc comments).  `JSON.parse` is modeled by
a strict recursive-descent function `jsonParse`; JSON numbers are kept as their
literal digit strings (no claim computes with a parsed number, so floating
point semantics are not needed).
-/

set_option autoImplicit false

namespace S2P

/-! ## Character and string helpers (JavaScript semantics) -/

/-- The ASCII whitespace characters recognized by the JavaScript `\s` class and
by `String.prototype.trim` (the rare non-ASCII space characters are not used by
any input considered here). -/
def jsWs (c : Char) : Bool :=
  c = ' ' || c = '\t' || c = '\n' || c = '\x0d' || c = '\x0b' || c = '\x0c'

/-- ASCII lower-casing of one character, as `String.prototype.toLowerCase`
acts on ASCII. -/
def asciiLower (c : Char) : Char :=
  if 'A' ≤ c ∧ c ≤ 'Z' then Char.ofNat (c.toNat + 32) else c

/-- ASCII upper-casing of one character, as `String.prototype.toUpperCase`
acts on ASCII. -/
def asciiUpper (c : Char) : Char :=
  if 'a' ≤ c ∧ c ≤ 'z' then Char.ofNat (c.toNat - 32) else c

def lowerStr (s : List Char) : List Char := s.map asciiLower

/-- `String.prototype.trim`: strip leading and trailing whitespace. -/
def jsTrim (s : List Char) : List Char :=
  ((s.dropWhile jsWs).reverse.dropWhile jsWs).reverse

/-- One step of substring search: does `pat` occur anywhere in `s`?
(Model of `String.prototype.includes`.) -/
def occurs (pat s : List Char) : Bool :=
  pat.isPrefixOf s ||
    match s with
    | [] => false
    | _ :: t => occurs pat t

/-- Split `s` at the first occurrence of `pat`: returns the part before the
occurrence and the part after it.  `none` when `pat` does not occur. -/
def splitFirst (pat s : List Char) : Option (List Char × List Char) :=
  if pat.isPrefixOf s then some ([], s.drop pat.length)
  else
    match s with
    | [] => none
    | c :: t => (splitFirst pat t).map (fun p => (c :: p.1, p.2))

/-- `String.prototype.replace` with a plain-string first argument: replace the
first occurrence of `pat` (here by the empty string, the only use in the
source), leaving `s` unchanged when `pat` does not occur. -/
def removeFirstSub (pat s : List Char) : List Char :=
  match splitFirst pat s with
  | none => s
  | some (pre, suf) => pre ++ suf

/-- The backtick character (0x60). -/
def btick : Char := Char.ofNat 96

/-- The three-backtick fence marker of a Markdown code block. -/
def fence3 : List Char := [btick, btick, btick]

/-! ## JSON values and `JSON.parse` -/

/-- JSON values as produced by `JSON.parse`.  Numbers are kept as their source
literal (a list of characters): no claim compares or computes with numeric
values, so number semantics beyond the literal are not needed.  Object fields
are kept in insertion order; duplicate keys are resolved as `JSON.parse` does
(last value wins, first position kept), see `insertJs`. -/
inductive Json where
  | null : Json
  | bool (b : Bool) : Json
  | num (lit : List Char) : Json
  | str (s : List Char) : Json
  | arr (elems : List Json) : Json
  | obj (fields : List (List Char × Json)) : Json
deriving Repr, Inhabited

/-- Insertion into an object's field list with JavaScript property-assignment
semantics: an existing key keeps its original position and gets the new value;
a new key is appended. -/
def insertJs (fields : List (List Char × Json)) (k : List Char) (v : Json) :
    List (List Char × Json) :=
  match fields with
  | [] => [(k, v)]
  | (k', v') :: rest =>
    if k' = k then (k', v) :: rest else (k', v') :: insertJs rest k v

/-- Field lookup on an object's field list. -/
def lookupField (fields : List (List Char × Json)) (k : List Char) : Option Json :=
  match fields with
  | [] => none
  | (k', v) :: rest => if k' = k then some v else lookupField rest k

/-- JavaScript property access `j.k`: `some v` when `j` is an object with
field `k`, `none` (i.e. `undefined`) otherwise.  (Property access on
primitives yields `undefined` for the property names used by the source;
access on `null`/`undefined` never happens unguarded in the modeled paths.) -/
def getField (j : Json) (k : List Char) : Option Json :=
  match j with
  | .obj fields => lookupField fields k
  | _ => none

/-- JavaScript truthiness of a present value: `false`, `0`, `""` and `null`
are falsy, everything else is truthy.  (A number is falsy exactly when its
literal denotes zero; the literals reaching this predicate are plain digit
strings, for which this test is exact.) -/
def jsTruthy (j : Json) : Bool :=
  match j with
  | .null => false
  | .bool b => b
  | .num lit => !(lit.any (fun c => '1' ≤ c ∧ c ≤ '9'))  = false
  | .str s => s ≠ []
  | .arr _ => true
  | .obj _ => true

/-- Truthiness of a possibly-absent value (`undefined` is falsy). -/
def jsTruthyOpt (j : Option Json) : Bool :=
  match j with
  | none => false
  | some v => jsTruthy v

/-- Decimal digit string of a natural number (`Number.prototype.toString` for
the small indices and counters in the source). -/
def natLit (n : Nat) : List Char := Nat.toDigits 10 n

/-- JavaScript property assignment `j.k = v`: updates an object's field;
silently a no-op on primitives (non-strict mode, as the compiled source
runs). -/
def setFieldJ (j : Json) (k : List Char) (v : Json) : Json :=
  match j with
  | .obj fields => .obj (insertJs fields k v)
  | _ => j

/-- JavaScript indexing `j[i]` with a numeric index: array element, string
character, or the object property named by the index's decimal string;
`undefined` otherwise. -/
def jsIndex (j : Json) (i : Nat) : Option Json :=
  match j with
  | .arr elems => elems.get? i
  | .str s => (s.get? i).map (fun c => Json.str [c])
  | .obj fields => lookupField fields (natLit i)
  | _ => none

/-- `Object.keys` / `Object.entries` on a JSON value: fields of an object,
index-element pairs of an array, index-character pairs of a string, nothing
for primitives.  (Own enumerable properties, as JavaScript enumerates them.) -/
def jsEntries (j : Json) : List (List Char × Json) :=
  match j with
  | .obj fields => fields
  | .arr elems => (elems.enum.map (fun p => (natLit p.1, p.2)))
  | .str s => (s.enum.map (fun p => (natLit p.1, Json.str [p.2])))
  | _ => []

/-- JSON whitespace accepted by `JSON.parse` (stricter than `\s`). -/
def jsonWs (c : Char) : Bool :=
  c = ' ' || c = '\t' || c = '\n' || c = '\x0d'

def skipJsonWs (s : List Char) : List Char := s.dropWhile jsonWs

def isDigit (c : Char) : Bool := '0' ≤ c && c ≤ '9'

def isHexDigit (c : Char) : Bool :=
  isDigit c || ('a' ≤ c && c ≤ 'f') || ('A' ≤ c && c ≤ 'F')

def hexVal (c : Char) : Nat :=
  if isDigit c then c.toNat - '0'.toNat
  else if 'a' ≤ c ∧ c ≤ 'f' then c.toNat - 'a'.toNat + 10
  else c.toNat - 'A'.toNat + 10

/-- Parse the body of a JSON string literal (after the opening quote),
handling the standard escapes.  Returns the decoded characters and the rest of
the input after the closing quote. -/
def parseJsonStr (fuel : Nat) (s : List Char) : Option (List Char × List Char) :=
  match fuel with
  | 0 => none
  | fuel + 1 =>
    match s with
    | [] => none
    | '"' :: rest => some ([], rest)
    | '\\' :: e :: rest =>
      let cont (c : Char) (r : List Char) : Option (List Char × List Char) :=
        (parseJsonStr fuel r).map (fun p => (c :: p.1, p.2))
      match e with
      | '"' => cont '"' rest
      | '\\' => cont '\\' rest
      | '/' => cont '/' rest
      | 'b' => cont '\x08' rest
      | 'f' => cont '\x0c' rest
      | 'n' => cont '\n' rest
      | 'r' => cont '\x0d' rest
      | 't' => cont '\t' rest
      | 'u' =>
        match rest with
        | h1 :: h2 :: h3 :: h4 :: rest' =>
          if isHexDigit h1 && isHexDigit h2 && isHexDigit h3 && isHexDigit h4 then
            cont (Char.ofNat (((hexVal h1 * 16 + hexVal h2) * 16 + hexVal h3) * 16 + hexVal h4)) rest'
          else none
        | _ => none
      | _ => none
    | c :: rest =>
      if c.toNat < 32 then none
      else (parseJsonStr fuel rest).map (fun p => (c :: p.1, p.2))

/-- Consume a JSON number literal (grammar `-?(0|[1-9][0-9]*)(.[0-9]+)?([eE][+-]?[0-9]+)?`),
returning the consumed literal and the rest. -/
def parseJsonNum (s : List Char) : Option (List Char × List Char) :=
  let (neg, s1) := match s with
    | '-' :: t => (['-'], t)
    | _ => ([], s)
  match s1 with
  | [] => none
  | c :: _ =>
    if !isDigit c then none
    else if c = '0' && (s1.drop 1).head?.elim false isDigit then none
    else
      let intPart := s1.takeWhile isDigit
      let s2 := s1.dropWhile isDigit
      let (fracPart, s3) :=
        match s2 with
        | '.' :: t =>
          if t.head?.elim false isDigit then
            ('.' :: t.takeWhile isDigit, t.dropWhile isDigit)
          else ([], s2)
        | _ => ([], s2)
      if fracPart = [] ∧ s2.head? = some '.' then none
      else
        let (expPart, s4) :=
          match s3 with
          | e :: t =>
            if e = 'e' ∨ e = 'E' then
              let (sgn, t1) := match t with
                | '+' :: u => (['+'], u)
                | '-' :: u => (['-'], u)
                | _ => ([], t)
              if t1.head?.elim false isDigit then
                (e :: sgn ++ t1.takeWhile isDigit, t1.dropWhile isDigit)
              else ([], s3)
            else ([], s3)
          | _ => ([], s3)
        if expPart = [] ∧ (s3.head? = some 'e' ∨ s3.head? = some 'E') then none
        else some (neg ++ intPart ++ fracPart ++ expPart, s4)

mutual
/-- Recursive-descent JSON value parsing: skips leading whitespace and
dispatches on the first character.  Returns the value and the unconsumed
rest; trailing whitespace of the whole document is handled by `jsonParse`. -/
def parseJsonVal (fuel : Nat) (s : List Char) : Option (Json × List Char) :=
  match fuel with
  | 0 => none
  | fuel + 1 =>
    let s := skipJsonWs s
    match s with
    | [] => none
    | c :: rest =>
      if c = '{' then parseJsonObj fuel rest
      else if c = '[' then parseJsonArr fuel rest
      else if c = '"' then (parseJsonStr fuel rest).map (fun p => (Json.str p.1, p.2))
      else if c = 't' then
        if ['r', 'u', 'e'].isPrefixOf rest then some (Json.bool true, rest.drop 3) else none
      else if c = 'f' then
        if ['a', 'l', 's', 'e'].isPrefixOf rest then some (Json.bool false, rest.drop 4) else none
      else if c = 'n' then
        if ['u', 'l', 'l'].isPrefixOf rest then some (Json.null, rest.drop 3) else none
      else if c = '-' ∨ isDigit c then
        (parseJsonNum s).map (fun p => (Json.num p.1, p.2))
      else none

/-- Parse the inside of a JSON object, after the opening brace. -/
def parseJsonObj (fuel : Nat) (s : List Char) : Option (Json × List Char) :=
  match fuel with
  | 0 => none
  | fuel + 1 =>
    let s := skipJsonWs s
    match s with
    | '}' :: rest => some (Json.obj [], rest)
    | _ => parseJsonMembers fuel s []

/-- Parse the members of a JSON object (at least one expected). -/
def parseJsonMembers (fuel : Nat) (s : List Char) (acc : List (List Char × Json)) :
    Option (Json × List Char) :=
  match fuel with
  | 0 => none
  | fuel + 1 =>
    match skipJsonWs s with
    | '"' :: rest =>
      match parseJsonStr fuel rest with
      | none => none
      | some (key, rest1) =>
        match skipJsonWs rest1 with
        | ':' :: rest2 =>
          match parseJsonVal fuel rest2 with
          | none => none
          | some (v, rest3) =>
            let acc := insertJs acc key v
            match skipJsonWs rest3 with
            | ',' :: rest4 => parseJsonMembers fuel rest4 acc
            | '}' :: rest4 => some (Json.obj acc, rest4)
            | _ => none
        | _ => none
    | _ => none

/-- Parse the inside of a JSON array, after the opening bracket. -/
def parseJsonArr (fuel : Nat) (s : List Char) : Option (Json × List Char) :=
  match fuel with
  | 0 => none
  | fuel + 1 =>
    match skipJsonWs s with
    | ']' :: rest => some (Json.arr [], rest)
    | _ => parseJsonElems fuel s []

/-- Parse the elements of a JSON array (at least one expected). -/
def parseJsonElems (fuel : Nat) (s : List Char) (acc : List Json) :
    Option (Json × List Char) :=
  match fuel with
  | 0 => none
  | fuel + 1 =>
    match parseJsonVal fuel s with
    | none => none
    | some (v, rest) =>
      match skipJsonWs rest with
      | ',' :: rest1 => parseJsonElems fuel rest1 (acc ++ [v])
      | ']' :: rest1 => some (Json.arr (acc ++ [v]), rest1)
      | _ => none
end

/-- Model of `JSON.parse`: parse one JSON document, requiring that nothing but
whitespace follows it; `none` models the thrown `SyntaxError`. -/
def jsonParse (s : List Char) : Option Json :=
  match parseJsonVal (s.length + 1) s with
  | none => none
  | some (v, rest) => if skipJsonWs rest = [] then some v else none

/-! ## A small backtracking regular-expression engine

JavaScript regexes in the source are transliterated constructor-for-construct
into `RE` and run by `mtch`, a continuation-passing backtracking matcher that
reproduces the JavaScript semantics relevant here: leftmost match, greedy and
lazy quantifiers with backtracking, alternation preferring the left branch,
lookahead assertions, the empty-iteration cut inside quantifiers, and `$`
meaning end of input (no pattern in the source uses the `m` flag).  Case
insensitivity (`i` flag) is expressed per literal/class when transliterating. -/

inductive RE where
  | eps : RE
  | chP (p : Char → Bool) : RE
  | lit (cs : List Char) : RE
  | liti (cs : List Char) : RE
  | seq (a b : RE) : RE
  | alt (a b : RE) : RE
  | opt (a : RE) : RE
  | star (a : RE) : RE
  | starL (a : RE) : RE
  | grp (i : Nat) (a : RE) : RE
  | look (a : RE) : RE
  | nlook (a : RE) : RE
  | eos : RE
  | bos : RE

/-- Greedy `+` as in the source patterns. -/
def RE.plus (a : RE) : RE := .seq a (.star a)

/-- Sequence of several regex parts. -/
def REseq (l : List RE) : RE := l.foldr RE.seq .eps

/-- Record the span of capture group `i` (overwriting an earlier span). -/
def setCap (i : Nat) (span : Nat × Nat) (caps : List (Nat × Nat × Nat)) :
    List (Nat × Nat × Nat) :=
  (i, span) :: caps.filter (fun c => c.1 ≠ i)

/-- The backtracking matcher.  `mtch input fuel re pos caps k` tries to match
`re` at position `pos` of `input` and passes the end position and captures to
the continuation `k`; the first overall success (in JavaScript's preference
order) is returned. -/
def mtch (input : List Char) : Nat → RE → Nat → List (Nat × Nat × Nat) →
    (Nat → List (Nat × Nat × Nat) → Option (Nat × List (Nat × Nat × Nat))) →
    Option (Nat × List (Nat × Nat × Nat))
  | 0, _, _, _, _ => none
  | fuel + 1, re, pos, caps, k =>
    match re with
    | .eps => k pos caps
    | .chP p =>
      match input.drop pos with
      | c :: _ => if p c then k (pos + 1) caps else none
      | [] => none
    | .lit cs => if cs.isPrefixOf (input.drop pos) then k (pos + cs.length) caps else none
    | .liti cs =>
      if cs.isPrefixOf (lowerStr ((input.drop pos).take cs.length)) then
        k (pos + cs.length) caps
      else none
    | .seq a b => mtch input fuel a pos caps (fun p c => mtch input fuel b p c k)
    | .alt a b => (mtch input fuel a pos caps k).orElse (fun _ => mtch input fuel b pos caps k)
    | .opt a => (mtch input fuel a pos caps k).orElse (fun _ => k pos caps)
    | .star a =>
      (mtch input fuel a pos caps
        (fun p c => if p = pos then none else mtch input fuel (.star a) p c k)).orElse
        (fun _ => k pos caps)
    | .starL a =>
      (k pos caps).orElse
        (fun _ => mtch input fuel a pos caps
          (fun p c => if p = pos then none else mtch input fuel (.starL a) p c k))
    | .grp i a => mtch input fuel a pos caps (fun p c => k p (setCap i (pos, p) c))
    | .look a =>
      match mtch input fuel a pos caps (fun p c => some (p, c)) with
      | some _ => k pos caps
      | none => none
    | .nlook a =>
      match mtch input fuel a pos caps (fun p c => some (p, c)) with
      | some _ => none
      | none => k pos caps
    | .eos => if pos = input.length then k pos caps else none
    | .bos => if pos = 0 then k pos caps else none

/-- Fuel that amply covers the recursion depth of `mtch` for the source's
patterns (small fixed nesting, quantifiers advancing through the input). -/
def reFuel (input : List Char) : Nat := 500 * (input.length + 2) + 500

/-- One match attempt anchored at `pos`; returns end position and captures. -/
def execAt (re : RE) (input : List Char) (pos : Nat) :
    Option (Nat × List (Nat × Nat × Nat)) :=
  mtch input (reFuel input) re pos [] (fun p c => some (p, c))

/-- Leftmost match at or after `pos` (the JavaScript match search): returns
(start, end, captures). -/
def findFrom (re : RE) (input : List Char) : Nat → Nat →
    Option (Nat × Nat × List (Nat × Nat × Nat))
  | _, 0 => none
  | pos, budget + 1 =>
    if pos > input.length then none
    else
      match execAt re input pos with
      | some (e, caps) => some (pos, e, caps)
      | none => findFrom re input (pos + 1) budget

/-- Model of `String.prototype.match` without the `g` flag (and of a single
`RegExp.prototype.exec`): the leftmost match. -/
def reFind (re : RE) (input : List Char) : Option (Nat × Nat × List (Nat × Nat × Nat)) :=
  findFrom re input 0 (input.length + 2)

/-- `RegExp.prototype.test`. -/
def reTest (re : RE) (input : List Char) : Bool := (reFind re input).isSome

/-- The slice `input[a..b)`. -/
def sliceStr (input : List Char) (a b : Nat) : List Char := (input.take b).drop a

/-- The text of capture group `i` of a match; `none` when the group did not
participate. -/
def grpStr (input : List Char) (caps : List (Nat × Nat × Nat)) (i : Nat) :
    Option (List Char) :=
  (caps.find? (fun c => c.1 = i)).map (fun c => sliceStr input c.2.1 c.2.2)

/-- `match[0]` of a match result. -/
def matchedStr (input : List Char) (m : Nat × Nat × List (Nat × Nat × Nat)) :
    List Char :=
  sliceStr input m.1 m.2.1

/-- All matches under the `g` flag (the `while ((match = pattern.exec(text)))`
loops of the source): repeated search, advancing past each match, bumping by
one position after an empty match as JavaScript does via `lastIndex`. -/
def reFindAll (re : RE) (input : List Char) : List (Nat × Nat × List (Nat × Nat × Nat)) :=
  go 0 (input.length + 2)
where
  go (pos budget : Nat) : List (Nat × Nat × List (Nat × Nat × Nat)) :=
    match budget with
    | 0 => []
    | budget + 1 =>
      match findFrom re input pos (input.length + 2) with
      | none => []
      | some m =>
        let next := if m.2.1 = m.1 then m.2.1 + 1 else m.2.1
        m :: go next budget

/-- Model of `String.prototype.split` with a regex separator (no capture
groups in the separators used by the source). -/
def splitByRe (re : RE) (input : List Char) : List (List Char) :=
  let ms := reFindAll re input
  go 0 ms
where
  go (start : Nat) : List (Nat × Nat × List (Nat × Nat × Nat)) → List (List Char)
    | [] => [input.drop start]
    | m :: rest => sliceStr input start m.1 :: go m.2.1 rest

/-- Remove the leftmost match of `re` from `input` (the
`String.prototype.replace(regex, emptyString)` uses in the source). -/
def removeFirstRe (re : RE) (input : List Char) : List Char :=
  match reFind re input with
  | none => input
  | some m => sliceStr input 0 m.1 ++ input.drop m.2.1

/-! Common character classes of the source patterns. -/

def anyC : RE := .chP (fun _ => true)
def nonNlC : RE := .chP (fun c => c ≠ '\n')
def wsC : RE := .chP jsWs
def digitC : RE := .chP isDigit

def asciiLetter (c : Char) : Bool := ('A' ≤ c && c ≤ 'Z') || ('a' ≤ c && c ≤ 'z')

/-- The `\w` class: `[A-Za-z0-9_]`. -/
def wordC : RE := .chP (fun c => isDigit c || asciiLetter c || c = '_')

/-! ## Fenced-code-block and brace extraction (ResponseParser strategies 2-3)

From `processScreenshotsHelper` (identical code on the OpenAI path, lines
610-631, and the Gemini path, lines 717-731 of the source). -/

def tagJson : List Char := "json".data

/-- The extraction step of the regex match
`responseText.match(/3bt(?:json)?([forall-inner-lazy]*?)3bt/)` (writing `3bt`
for the three-backtick fence): `some capture` on a match, `none` when the
regex fails.

This direct model is equivalent to the backtracking regex:  the match must
start at the first fence occurrence (the pattern begins with the fence
literal);  the optional `json` tag is consumed greedily when present;  the
lazy `[^]*?` capture extends to the first following fence occurrence.  The
greedy option never needs backtracking: `json` contains neither braces nor
backticks, so a fence occurrence after the tag exists if and only if one
exists when the tag is not consumed, and when no fence occurrence follows the
first one at all, no later match start (which would itself be a fence
occurrence) exists either. -/
def extractFenced (s : List Char) : Option (List Char) :=
  match splitFirst fence3 s with
  | none => none
  | some (_, rest) =>
    let rest' := if tagJson.isPrefixOf rest then rest.drop 4 else rest
    (splitFirst fence3 rest').map (fun p => p.1)

/-- `jsonMatch || [null, responseText]`: the text handed to `JSON.parse` is
the fenced capture when the regex matched, the whole response otherwise. -/
def fencedOrWhole (s : List Char) : List Char := (extractFenced s).getD s

/-- ResponseParser strategy 1 (direct parse of the text, after the source's
`.trim()`). -/
def strategy1 (s : List Char) : Option Json := jsonParse (jsTrim s)

/-- ResponseParser strategy 2 in isolation: extract the first fenced block,
then direct-parse its (trimmed) contents. -/
def strategy2 (s : List Char) : Option Json :=
  (extractFenced s).bind (fun cap => jsonParse (jsTrim cap))

/-- The aggressive fallback regex `/[lbrace][forall]*[rbrace]/` (first `\x7b`
to the last `\x7d`): the pattern must start at the first open brace, and the
greedy any-character star reaches to the last close brace at or after it. -/
def extractBraces (s : List Char) : Option (List Char) :=
  match s.findIdx? (fun c => c = '\x7b'), s.reverse.findIdx? (fun c => c = '\x7d') with
  | some i, some jr =>
    let j := s.length - 1 - jr
    if i ≤ j then some (sliceStr s i (j + 1)) else none
  | _, _ => none

/-- The full extraction-response parse chain of `processScreenshotsHelper`
(OpenAI and Gemini paths): fenced-block-or-whole text, `JSON.parse`, then on
failure the brace-extraction retry.  `none` models the thrown parse error
(both `throw new Error` sites). -/
def extractProblemInfo (resp : List Char) : Option Json :=
  match jsonParse (jsTrim (fencedOrWhole resp)) with
  | some v => some v
  | none => (extractBraces resp).bind jsonParse

/-- The Anthropic extraction path's cruder cleanup (line 781):
`responseText.replace(/3btjson|3bt/g, '')` — remove every occurrence of the
tagged or bare fence, scanning left to right with the alternation preferring
the longer tagged form. -/
def stripFences : List Char → List Char
  | [] => []
  | c :: t =>
    if (fence3 ++ tagJson).isPrefixOf (c :: t) then stripFences ((c :: t).drop 7)
    else if fence3.isPrefixOf (c :: t) then stripFences ((c :: t).drop 3)
    else c :: stripFences t
termination_by s => s.length
decreasing_by
  all_goals simp_all [List.drop]
  all_goals omega

/-! ## Solution-response parsing (`generateSolutionsHelper`, lines 1421-1487)

The code block, thoughts list and time/space complexity extraction from the
synthesis response, including the complexity normalization heuristic. -/

/-- `/3bt(?:\w+)?\s*([forall]*?)3bt/` — code block with optional language tag. -/
def codePat : RE :=
  REseq [.lit fence3, .opt (RE.plus wordC), .star wsC, .grp 1 (.starL anyC), .lit fence3]

/-- `codeMatch ? codeMatch[1].trim() : responseContent`. -/
def extractCode (resp : List Char) : List Char :=
  match reFind codePat resp with
  | some m => jsTrim ((grpStr resp m.2.2 1).getD [])
  | none => resp

/-- `/(?:Thoughts:|Key Insights:|Reasoning:|Approach:)([forall]*?)(?:Time complexity:|$)/i` -/
def thoughtsPat : RE :=
  REseq [
    .alt (.liti "thoughts:".data)
      (.alt (.liti "key insights:".data)
        (.alt (.liti "reasoning:".data) (.liti "approach:".data))),
    .grp 1 (.starL anyC),
    .alt (.liti "time complexity:".data) .eos]

/-- JavaScript `.` (no `s` flag): any character except line terminators. -/
def dotC : RE := .chP (fun c => c ≠ '\n' ∧ c ≠ '\x0d')

/-- A bullet marker: `(?:[-*•]|\d+\.)`. -/
def bulletMark : RE :=
  .alt (.chP (fun c => c = '-' || c = '*' || c = '•')) (REseq [RE.plus digitC, .lit ['.']])

/-- `/(?:^|\n)\s*(?:[-*•]|\d+\.)\s*(.*)/g` — one bullet/numbered line. -/
def bulletPat : RE :=
  REseq [.alt .bos (.lit ['\n']), .star wsC, bulletMark, .star wsC, .grp 1 (.star dotC)]

/-- `/^\s*(?:[-*•]|\d+\.)\s*/` — the marker prefix stripped from each bullet. -/
def bulletStripPat : RE := REseq [.bos, .star wsC, bulletMark, .star wsC]

/-- The thoughts extraction (lines 1426-1443): the capture after a
thoughts/insights/reasoning/approach header, split into bullet items when any
are found, otherwise into trimmed non-empty lines. -/
def extractThoughts (resp : List Char) : List (List Char) :=
  match reFind thoughtsPat resp with
  | none => []
  | some m =>
    match grpStr resp m.2.2 1 with
    | none => []
    | some g =>
      if g = [] then []
      else
        let bullets := reFindAll bulletPat g
        if bullets ≠ [] then
          ((bullets.map (fun b => jsTrim (removeFirstRe bulletStripPat (matchedStr g b)))).filter
            (fun t => t ≠ []))
        else ((g.splitOn '\n').map jsTrim).filter (fun t => t ≠ [])

/-- `/Time complexity:?\s*([^\n]+(?:\n[^\n]+)*?)(?=\n\s*(?:Space complexity|$))/i` -/
def timePat : RE :=
  REseq [
    .liti "time complexity".data,
    .opt (.lit [':']),
    .star wsC,
    .grp 1 (REseq [RE.plus nonNlC, .starL (REseq [.lit ['\n'], RE.plus nonNlC])]),
    .look (REseq [.lit ['\n'], .star wsC, .alt (.liti "space complexity".data) .eos])]

/-- `/Space complexity:?\s*([^\n]+(?:\n[^\n]+)*?)(?=\n\s*(?:[A-Z]|$))/i`
(under the `i` flag the class `[A-Z]` matches letters of either case). -/
def spacePat : RE :=
  REseq [
    .liti "space complexity".data,
    .opt (.lit [':']),
    .star wsC,
    .grp 1 (REseq [RE.plus nonNlC, .starL (REseq [.lit ['\n'], RE.plus nonNlC])]),
    .look (REseq [.lit ['\n'], .star wsC, .alt (.chP asciiLetter) .eos])]

/-- `/O\([^)]+\)/i` — a Big-O token. -/
def bigOPat : RE :=
  REseq [.liti "o(".data, RE.plus (.chP (fun c => c ≠ ')')), .lit [')']]

/-- The deliberately conservative default substituted when no time-complexity
line is found (line 1449 of the source, verbatim). -/
def defaultTimeCplx : List Char :=
  "O(n) - Linear time complexity because we only iterate through the array once. Each element is processed exactly one time, and the hashmap lookups are O(1) operations.".data

/-- The default space complexity (line 1450 of the source, verbatim). -/
def defaultSpaceCplx : List Char :=
  "O(n) - Linear space complexity because we store elements in the hashmap. In the worst case, we might need to store all elements before finding the solution pair.".data

/-- The extracted complexity text: group 1 of the leftmost match, demanding
(as `if (timeMatch && timeMatch[1])` does) that the group text be truthy. -/
def extractCplx (pat : RE) (resp : List Char) : Option (List Char) :=
  match reFind pat resp with
  | none => none
  | some m =>
    match grpStr resp m.2.2 1 with
    | none => none
    | some g => if g = [] then none else some g

/-- The normalization applied to an extracted complexity text (lines
1452-1465 / 1467-1480): keep the default when nothing was extracted; prefix
a default `O(n) - ` when the text has no Big-O token; reshape a bare Big-O
text into `notation - rest` when it has neither a dash nor the word
`because`; otherwise leave the trimmed text unchanged. -/
def normalizeCplx (dflt : List Char) (extracted : Option (List Char)) : List Char :=
  match extracted with
  | none => dflt
  | some raw =>
    let t := jsTrim raw
    if !reTest bigOPat t then "O(n) - ".data ++ t
    else if !(t.contains '-') && !(occurs "because".data t) then
      match reFind bigOPat t with
      | some m =>
        let nota := matchedStr t m
        nota ++ " - ".data ++ jsTrim (removeFirstSub nota t)
      | none => t
    else t

/-- The `time_complexity` field produced from a synthesis response. -/
def timeComplexityOf (resp : List Char) : List Char :=
  normalizeCplx defaultTimeCplx (extractCplx timePat resp)

/-- The `space_complexity` field produced from a synthesis response. -/
def spaceComplexityOf (resp : List Char) : List Char :=
  normalizeCplx defaultSpaceCplx (extractCplx spacePat resp)

/-! ## AnswerNormalizer: option extraction from free text
(`extractOptionsFromText`, lines 2003-2065) -/

def isUpAD (c : Char) : Bool := 'A' ≤ c && c ≤ 'D'
def isLoAD (c : Char) : Bool := 'a' ≤ c && c ≤ 'd'
def dotParenC : RE := .chP (fun c => c = '.' ∨ c = ')')

/-- `/([A-D])[\.\)]\s*([^\n]+)(?=\s*[A-D][\.\)]|$)/g` -/
def optPat1 : RE :=
  REseq [.grp 1 (.chP isUpAD), dotParenC, .star wsC, .grp 2 (RE.plus nonNlC),
    .look (.alt (REseq [.star wsC, .chP isUpAD, dotParenC]) .eos)]

/-- `/([a-d])[\.\)]\s*([^\n]+)(?=\s*[a-d][\.\)]|$)/g` -/
def optPat2 : RE :=
  REseq [.grp 1 (.chP isLoAD), dotParenC, .star wsC, .grp 2 (RE.plus nonNlC),
    .look (.alt (REseq [.star wsC, .chP isLoAD, dotParenC]) .eos)]

/-- `/\s*([1-4])[\.\)]\s*([^\n]+)(?=\s*[1-4][\.\)]|$)/g` -/
def optPat3 : RE :=
  REseq [.star wsC, .grp 1 (.chP (fun c => '1' ≤ c && c ≤ '4')), dotParenC, .star wsC,
    .grp 2 (RE.plus nonNlC),
    .look (.alt (REseq [.star wsC, .chP (fun c => '1' ≤ c && c ≤ '4'), dotParenC]) .eos)]

/-- `/(?:option|choice)\s*([A-Da-d])[:\.\)]\s*([^\n]+)/gi` -/
def optPat4 : RE :=
  REseq [.alt (.liti "option".data) (.liti "choice".data), .star wsC,
    .grp 1 (.chP (fun c => isUpAD c || isLoAD c)),
    .chP (fun c => c = ':' ∨ c = '.' ∨ c = ')'), .star wsC, .grp 2 (RE.plus nonNlC)]

/-- The option key produced from a pattern match: `match[groupKey].toUpperCase()`,
then digits `1`-`4` converted to `A`-`D` via `String.fromCharCode(64 + parseInt(key))`. -/
def optKeyOf (raw : List Char) : List Char :=
  let k := raw.map asciiUpper
  match k with
  | [c] => if '1' ≤ c ∧ c ≤ '4' then [Char.ofNat (64 + (c.toNat - 48))] else k
  | _ => k

/-- An insertion into a string-valued options record, with JavaScript
property-assignment semantics (existing key keeps its position, value
replaced). -/
def insertOpt (opts : List (List Char × List Char)) (k v : List Char) :
    List (List Char × List Char) :=
  match opts with
  | [] => [(k, v)]
  | (k', v') :: rest =>
    if k' = k then (k', v) :: rest else (k', v') :: insertOpt rest k v

/-- Characters with a special meaning in a regular-expression pattern. -/
def regexMeta (c : Char) : Bool :=
  c = '\\' || c = '^' || c = '$' || c = '.' || c = '*' || c = '+' || c = '?' ||
  c = '(' || c = ')' || c = '[' || c = ']' || c = '\x7b' || c = '\x7d' || c = '|'

/-- The dynamically built strip regex
`new RegExp(backslash-s-star + letter + class-dot-paren + backslash-s-star + optionText, 'i')`
of the option-stripping loop.  The source interpolates the option text into
the pattern without escaping; this model covers the interpolated texts that
contain no regex metacharacter (for which the dynamic pattern is the literal
text) and reports a model-boundary error otherwise — no claim exercises the
metacharacter case.  A missing option value is interpolated as the literal
text `undefined`, as JavaScript template strings do. -/
def dynStripRe (letter : Char) (valOpt : Option (List Char)) : Except Unit RE :=
  let valStr := match valOpt with
    | some v => v
    | none => "undefined".data
  if valStr.any regexMeta then .error ()
  else
    .ok (REseq [.star wsC, .liti [asciiLower letter], dotParenC, .star wsC,
      .liti (lowerStr valStr)])

/-- Result shape of `extractOptionsFromText`. -/
structure OptExtract where
  questionText : List Char
  options : List (List Char × List Char)
deriving Repr

/-- The body of `extractOptionsFromText` for a string argument: try the four
option patterns in order with a global exec loop; the first with at least one
match wins, its option texts are stripped from the question text and the loop
breaks; with no pattern matching, fall back to line-structured extraction
(first non-blank line is the question, the next up to four non-blank lines
become options A-D). -/
def extractOptionsCore (text : List Char) : Except Unit OptExtract := do
  let firstHit := [optPat1, optPat2, optPat3, optPat4].findSome?
    (fun pat =>
      match reFindAll pat text with
      | [] => none
      | ms => some ms)
  match firstHit with
  | some ms =>
    let options := ms.foldl
      (fun acc m =>
        insertOpt acc (optKeyOf ((grpStr text m.2.2 1).getD []))
          (jsTrim ((grpStr text m.2.2 2).getD [])))
      []
    let questionText ← ['A', 'B', 'C', 'D'].foldlM
      (fun (qt : List Char) letter => do
        let re ← dynStripRe letter ((options.find? (fun o => o.1 = [letter])).map (fun o => o.2))
        return removeFirstRe re qt)
      text
    return { questionText := questionText, options := options }
  | none =>
    let lines := (text.splitOn '\n').filter (fun l => jsTrim l ≠ [])
    match lines with
    | [] => return { questionText := text, options := [] }
    | l0 :: rest =>
      let optLines := (rest.take 4).map jsTrim
      return { questionText := jsTrim l0,
               options := (optLines.enum.map
                 (fun p => ([Char.ofNat (65 + p.1)], p.2))) }

/-- `extractOptionsFromText` on a JavaScript value.  A non-string argument
always ends in a thrown `TypeError` in the source: either no option pattern
matches the coerced string and `text.split` is called on the non-string, or a
pattern matches and `questionText.replace` is called on it.  The model
reports that crash as an error. -/
def extractOptionsFromTextJs (text : Option Json) : Except Unit OptExtract :=
  match text with
  | some (.str s) => extractOptionsCore s
  | _ => .error ()

/-! ## `extractQuestionsFromText` (lines 1954-1998) -/

/-- `/(\d+)[\.\)][\s]*([^\n]+(?:(?!\d+[\.\)][\s]*)[^\n])*)/g` -/
def questionPat1 : RE :=
  REseq [.grp 1 (RE.plus digitC), dotParenC, .star wsC,
    .grp 2 (REseq [RE.plus nonNlC,
      .star (REseq [.nlook (REseq [RE.plus digitC, dotParenC, .star wsC]), nonNlC])])]

/-- `/([A-Za-z])[\.\)][\s]*([^\n]+(?:(?![A-Za-z][\.\)][\s]*)[^\n])*)/g` -/
def questionPat2 : RE :=
  REseq [.grp 1 (.chP asciiLetter), dotParenC, .star wsC,
    .grp 2 (REseq [RE.plus nonNlC,
      .star (REseq [.nlook (REseq [.chP asciiLetter, dotParenC, .star wsC]), nonNlC])])]

/-- `/\n\s*\n/` — the block separator of the aggressive fallback. -/
def blankLinePat : RE := REseq [.lit ['\n'], .star wsC, .lit ['\n']]

/-- A question object as built by `extractQuestionsFromText`. -/
def mkQuestion (num text : List Char) (opts : List (List Char × List Char)) : Json :=
  .obj [("question_number".data, .str num),
        ("question_text".data, .str text),
        ("options".data, .obj (opts.map (fun o => (o.1, Json.str o.2))))]

/-- `extractQuestionsFromText`: collect numbered then lettered question
matches (both patterns run over the whole text), splitting options out of each
matched text; when neither pattern matched, split the text at blank lines and
keep the blocks in which option extraction finds at least one option. -/
def extractQuestionsFromText (text : List Char) : Except Unit (List Json) := do
  let qs1 ← (reFindAll questionPat1 text).mapM
    (fun m => do
      let ex ← extractOptionsCore (jsTrim ((grpStr text m.2.2 2).getD []))
      return mkQuestion ((grpStr text m.2.2 1).getD []) ex.questionText ex.options)
  let qs2 ← (reFindAll questionPat2 text).mapM
    (fun m => do
      let ex ← extractOptionsCore (jsTrim ((grpStr text m.2.2 2).getD []))
      return mkQuestion ((grpStr text m.2.2 1).getD []) ex.questionText ex.options)
  let questions := qs1 ++ qs2
  if !questions.isEmpty then
    return questions
  else do
    let blocks := (splitByRe blankLinePat text).filter (fun b => jsTrim b ≠ [])
    let withIdx := blocks.enum
    let picked ← withIdx.foldlM
      (fun (acc : List Json) p => do
        let ex ← extractOptionsCore p.2
        if ex.options ≠ [] then
          return acc ++ [mkQuestion (natLit (p.1 + 1)) ex.questionText ex.options]
        else return acc)
      []
    return picked

/-! ## `validateAndFixMCQFormat` (lines 1881-1949) -/

def questionsKey : List Char := "questions".data
def questionNumberKey : List Char := "question_number".data
def questionTextKey : List Char := "question_text".data
def optionsKey : List Char := "options".data

/-- The hard-coded placeholder question substituted when nothing at all can
be extracted. -/
def placeholderQuestions : Json :=
  .obj [(questionsKey, .arr [
    .obj [(questionNumberKey, .str "1".data),
          (questionTextKey,
           .str "Failed to extract question text properly. Please check screenshots or try again.".data),
          (optionsKey, .obj [("A".data, .str "Option A".data),
                             ("B".data, .str "Option B".data),
                             ("C".data, .str "Option C".data),
                             ("D".data, .str "Option D".data)])]])]

/-- The default options substituted when option extraction finds nothing. -/
def defaultNoOptions : Json :=
  .obj [("A".data, .str "No options extracted".data), ("B".data, .str []),
        ("C".data, .str []), ("D".data, .str [])]

/-- Key normalization of one option key (lines 1936-1942): a single digit
`1`-`4` becomes the letter `A`-`D`; a key whose lower-casing is a single
letter `a`-`d` is upper-cased; any other key passes through unchanged. -/
def normalizeOptionKey (k : List Char) : List Char :=
  match k with
  | [c] =>
    if '1' ≤ c ∧ c ≤ '4' then [Char.ofNat (64 + (c.toNat - 48))]
    else if isLoAD (asciiLower c) then [asciiUpper c]
    else k
  | _ => k

/-- The per-question normalization of the options record (lines 1932-1945):
rebuild the object entry by entry under `normalizeOptionKey`, later entries
overwriting earlier ones that normalize to the same key. -/
def normalizeOptionsJs (entries : List (List Char × Json)) : List (List Char × Json) :=
  entries.foldl (fun acc e => insertJs acc (normalizeOptionKey e.1) e.2) []

/-- The per-question fix of the `validateAndFixMCQFormat` loop (lines
1910-1946): ensure a `question_number`, extract or default the options when
they are missing or empty, and normalize the option keys otherwise.
Assignments on a non-object question are silent no-ops; a question whose
options are missing and whose `question_text` is not a string makes
`extractOptionsFromText` crash (see `extractOptionsFromTextJs`). -/
def fixQuestion (i : Nat) (q : Json) : Except Unit Json :=
  let q1 := if !(jsTruthyOpt (getField q questionNumberKey)) then
      setFieldJ q questionNumberKey (.str (natLit (i + 1)))
    else q
  let optsOpt := getField q1 optionsKey
  if !(jsTruthyOpt optsOpt) || (jsEntries (optsOpt.getD .null)).length = 0 then
    match extractOptionsFromTextJs (getField q1 questionTextKey) with
    | .error e => .error e
    | .ok ex =>
      if ex.options ≠ [] then
        .ok (setFieldJ (setFieldJ q1 questionTextKey (.str ex.questionText)) optionsKey
          (.obj (ex.options.map (fun o => (o.1, Json.str o.2)))))
      else
        .ok (setFieldJ q1 optionsKey defaultNoOptions)
  else
    .ok (setFieldJ q1 optionsKey (.obj (normalizeOptionsJs (jsEntries (optsOpt.getD .null)))))

/-- The sequential fix loop over the questions array (`for (let i = 0; ...)`,
lines 1910-1946): each question is fixed in order; a thrown error aborts the
whole helper. -/
def fixQuestions : Nat → List Json → Except Unit (List Json)
  | _, [] => .ok []
  | i, q :: rest =>
    match fixQuestion i q with
    | .error e => .error e
    | .ok q' =>
      match fixQuestions (i + 1) rest with
      | .error e => .error e
      | .ok rest' => .ok (q' :: rest')

/-- `validateAndFixMCQFormat(problemInfo, rawResponse)`: when the input has no
non-empty `questions` array, re-extract questions from the raw text or fall
back to the hard-coded placeholder; otherwise run the per-question fix loop
and return the (mutated) input. -/
def validateAndFixMCQFormat (problemInfo : Json) (raw : List Char) : Except Unit Json :=
  let qsOpt := getField problemInfo questionsKey
  let isValid := jsTruthy problemInfo && jsTruthyOpt qsOpt &&
    (match qsOpt with
     | some (.arr l) => !l.isEmpty
     | _ => false)
  if !isValid then
    match extractQuestionsFromText raw with
    | .error e => .error e
    | .ok extracted =>
      if !extracted.isEmpty then .ok (Json.obj [(questionsKey, .arr extracted)])
      else .ok placeholderQuestions
  else
    match qsOpt with
    | some (.arr l) =>
      match fixQuestions 0 l with
      | .error e => .error e
      | .ok fixed => .ok (setFieldJ problemInfo questionsKey (.arr fixed))
    | _ => .ok problemInfo

/-! ## `parseMCQResponse` and its helpers (lines 1112-1198) -/

/-- `/Question\s+\d+:|Q\d+:/gi` — the question-block separator. -/
def questionSplitPat : RE :=
  .alt (REseq [.liti "question".data, RE.plus wsC, RE.plus digitC, .lit [':']])
    (REseq [.liti "q".data, RE.plus digitC, .lit [':']])

/-- `/correct\s+answer\s*(?:is|:)\s*([A-D])/i` (the class is case-insensitive
under the `i` flag). -/
def correctAnswerPat : RE :=
  REseq [.liti "correct".data, RE.plus wsC, .liti "answer".data, .star wsC,
    .alt (.liti "is".data) (.lit [':']), .star wsC,
    .grp 1 (.chP (fun c => isUpAD c || isLoAD c))]

/-- `/explanation\s*(?::|is)([forall]*?)(?:Analysis|Key concepts|$)/i` -/
def explanationPat : RE :=
  REseq [.liti "explanation".data, .star wsC, .alt (.lit [':']) (.liti "is".data),
    .grp 1 (.starL anyC),
    .alt (.liti "analysis".data) (.alt (.liti "key concepts".data) .eos)]

/-- The per-option analysis regex of `extractAnalysis`:
`new RegExp(option + backslash-s-star + colon-or-dash + backslash-s-star + one-line, 'i')`. -/
def analysisPat (letter : Char) : RE :=
  REseq [.liti [asciiLower letter], .star wsC, .alt (.lit [':']) (.lit ['-']),
    .star wsC, .grp 1 (RE.plus nonNlC)]

/-- `extractAnalysis(block)` (lines 1174-1187). -/
def extractAnalysis (block : List Char) : Json :=
  .obj (['A', 'B', 'C', 'D'].foldl
    (fun acc letter =>
      match reFind (analysisPat letter) block with
      | some m =>
        match grpStr block m.2.2 1 with
        | some g => if g = [] then acc else acc ++ [([letter], Json.str (jsTrim g))]
        | none => acc
      | none => acc)
    [])

/-- `/key\s+concepts\s*(?::|are|include)\s*([forall]*?)(?:\n\n|$)/i` -/
def keyConceptsPat : RE :=
  REseq [.liti "key".data, RE.plus wsC, .liti "concepts".data, .star wsC,
    .alt (.lit [':']) (.alt (.liti "are".data) (.liti "include".data)), .star wsC,
    .grp 1 (.starL anyC), .alt (.lit ['\n', '\n']) .eos]

/-- `extractKeyConcepts(block)` (lines 1189-1198). -/
def extractKeyConcepts (block : List Char) : Json :=
  match reFind keyConceptsPat block with
  | some m =>
    match grpStr block m.2.2 1 with
    | some g =>
      if g = [] then .arr []
      else
        .arr (((splitByRe (.chP (fun c => c = ',' ∨ c = '\n')) g).map jsTrim).filterMap
          (fun t => if t = [] then none else some (Json.str t)))
    | none => .arr []
  | none => .arr []

/-- The backfill loop of `parseMCQResponse` (lines 1119-1132): reconcile each
parsed answer with the question at the same index, copying the question's
text (or the empty string) when the answer's `question_text` is falsy, and
the question's options when the answer has none and the question does. -/
def backfillAnswers (answers : List Json) (questions : Json) : List Json :=
  answers.enum.map (fun p =>
    let (i, answer) := p
    match jsIndex questions i with
    | some qi =>
      if jsTruthy qi then
        let a1 := if !(jsTruthyOpt (getField answer questionTextKey)) then
            setFieldJ answer questionTextKey
              (if jsTruthyOpt (getField qi questionTextKey) then
                (getField qi questionTextKey).getD .null
              else .str [])
          else answer
        if !(jsTruthyOpt (getField a1 optionsKey)) ∧
            jsTruthyOpt (getField qi optionsKey) then
          setFieldJ a1 optionsKey ((getField qi optionsKey).getD .null)
        else a1
      else answer
    | none => answer)

/-- One answer object of the structured-text fallback (lines 1156-1164). -/
def fallbackAnswer (problemInfo : Json) (i : Nat) (block : List Char) : Json :=
  let correctAnswer : List Char :=
    match reFind correctAnswerPat block with
    | some m => (grpStr block m.2.2 1).getD []
    | none => "?".data
  let explanation : List Char :=
    match reFind explanationPat block with
    | some m => jsTrim ((grpStr block m.2.2 1).getD [])
    | none => "No explanation provided".data
  let questions := getField problemInfo questionsKey
  let qi := jsIndex (questions.getD .null) i
  let haveQ := jsTruthyOpt questions ∧ jsTruthyOpt qi
  let questionText : Json :=
    if haveQ then
      match getField (qi.getD .null) questionTextKey with
      | some t => if jsTruthy t then t else .str []
      | none => .str []
    else .str []
  let options : Json :=
    if haveQ then
      match getField (qi.getD .null) optionsKey with
      | some o => if jsTruthy o then o else .obj []
      | none => .obj []
    else .obj []
  .obj [(questionNumberKey, .num (natLit (i + 1))),
        (questionTextKey, questionText),
        (optionsKey, options),
        ("correct_answer".data, .str correctAnswer),
        ("explanation".data, .str explanation),
        ("analysis".data, extractAnalysis block),
        ("key_concepts".data, extractKeyConcepts block)]

/-- `parseMCQResponse(content, problemInfo)`: extract the outermost braces and
`JSON.parse` them, backfilling answers from the question set and returning the
parsed object as-is; a parse failure is caught and yields an empty answers
object; with no braces at all, split the content into question blocks and
build structured-text fallback answers. -/
def parseMCQResponse (content : List Char) (problemInfo : Json) : Json :=
  match extractBraces content with
  | some jsonText =>
    match jsonParse jsonText with
    | some parsed =>
      match getField parsed "answers".data, getField problemInfo questionsKey with
      | some (.arr answers), some qs =>
        -- an array is always truthy, so the guard reduces to the questions check
        if jsTruthy qs then
          setFieldJ parsed "answers".data (.arr (backfillAnswers answers qs))
        else parsed
      | _, _ => parsed
    | none => .obj [("answers".data, .arr [])]
  | none =>
    let blocks := (splitByRe questionSplitPat content).filter (fun b => jsTrim b ≠ [])
    let answers := blocks.enum.map (fun p => fallbackAnswer problemInfo p.1 p.2)
    .obj [("answers".data, .arr answers)]

/-- `generateMCQSolutionCode` (lines 1200-1225): pretty-print the parsed
answers as a comment block. -/
def jsDisplay : Json → List Char
  | .str s => s
  | .num l => l
  | .bool true => "true".data
  | .bool false => "false".data
  | .null => "null".data
  | .arr _ => "".data
  | .obj _ => "[object Object]".data

def generateMCQSolutionCode (parsed : Json) : List Char :=
  match getField parsed "answers".data with
  | some (.arr answers) =>
    if answers.isEmpty then "// MCQ Solution - No answers found".data
    else
      "// MCQ Solutions\n\n".data ++
        (answers.enum.map (fun p =>
          let (i, answer) := p
          let qn := if jsTruthyOpt (getField answer questionNumberKey) then
              jsDisplay ((getField answer questionNumberKey).getD .null)
            else natLit (i + 1)
          let qt := if jsTruthyOpt (getField answer questionTextKey) then
              jsDisplay ((getField answer questionTextKey).getD .null)
            else "Question text not available".data
          let optLines := match getField answer optionsKey with
            | some o =>
              if jsTruthy o then
                ((jsEntries o).map (fun e =>
                  e.1 ++ ": ".data ++ jsDisplay e.2 ++ "\n".data)).flatten ++ "\n".data
              else []
            | none => []
          let ca := if jsTruthyOpt (getField answer "correct_answer".data) then
              jsDisplay ((getField answer "correct_answer".data).getD .null)
            else "?".data
          let ex := if jsTruthyOpt (getField answer "explanation".data) then
              jsDisplay ((getField answer "explanation".data).getD .null)
            else "No explanation provided".data
          "/* Question ".data ++ qn ++ " */\n".data ++ qt ++ "\n\n".data ++ optLines ++
            "/* Answer: ".data ++ ca ++ " */\n".data ++
            "/* Explanation: ".data ++ ex ++ " */\n\n".data)).flatten
  | _ => "// MCQ Solution - No answers found".data

/-! ## Orchestration: providers, cancellation, events, view state machine

The request lifecycle of `processScreenshots` / `processScreenshotsHelper` /
`generateSolutionsHelper` / `handleMCQResponse` /
`processExtraScreenshotsHelper` / `cancelOngoingRequests`, modeled as pure
functions from the run's inputs (configuration, initialized clients, the
moment the abort signal is canceled, and the provider's response text) to the
trace of network calls issued, the events emitted, and the resulting state.

Library semantics used by the model: an `axios` request carrying an abort
`signal` rejects with a `CanceledError` without issuing the request when the
signal is already aborted, and aborts mid-flight when the signal fires during
the request (`axios.isCancel` is true for both).  The OpenAI and Anthropic
SDK calls in the source are not handed any signal, so they run to completion
regardless of the abort controller. -/

inductive Provider where
  | openai | gemini | anthropic
deriving DecidableEq, Repr

inductive AppMode where
  | coding | mcq
deriving DecidableEq, Repr

/-- The configuration snapshot loaded by `configHelper.loadConfig()` at the
start of each helper, restricted to the fields the control flow branches on
(model names and the language only select URL/prompt strings). -/
structure Config where
  apiProvider : Provider
  mode : AppMode
deriving DecidableEq, Repr

/-- Which client handles `initializeAIClient` produced (an unset handle makes
the corresponding branch fail with a configuration error). -/
structure Clients where
  openaiClient : Bool
  geminiApiKey : Bool
  anthropicClient : Bool
deriving DecidableEq, Repr

inductive Stage where
  | extraction | solution | mcqAnswer | debug
deriving DecidableEq, Repr

/-- One network request to a provider backend. -/
structure NetCall where
  stage : Stage
  provider : Provider
deriving DecidableEq, Repr

/-- When, relative to one network call, the run's abort signal fires:
not at all, before the call is issued, or while it is in flight. -/
inductive CancelAt where
  | no | before | during
deriving DecidableEq, Repr

inductive View where
  | queue | solutions
deriving DecidableEq, Repr

/-- The renderer events sent via `mainWindow.webContents.send` (the
`processing-status` progress messages are recorded without their message
payload: no claim concerns them). -/
inductive Event where
  | initialStart
  | noScreenshots
  | apiKeyInvalid
  | processingStatus
  | problemExtracted
  | solutionSuccess
  | initialSolutionError (msg : List Char)
  | debugStart
  | debugSuccess
  | debugError (msg : List Char)
deriving DecidableEq, Repr

/-- The solution payload assembled by `generateSolutionsHelper` /
`handleMCQResponse`. -/
structure SolData where
  code : List Char
  thoughts : List (List Char)
  time_complexity : List Char
  space_complexity : List Char
  answers : Option Json := none
  isMCQ : Bool := false

/-- The outcome of a helper: `ok` models `{success: true, data}`, `error msg`
models `{success: false, error: msg}`. -/
abbrev SolRes := Except (List Char) SolData

/-- The default thoughts list (line 1484). -/
def defaultThoughts : List (List Char) :=
  ["Solution approach based on efficiency and readability".data]

/-- The parsing of a synthesis response into a `SolData` (lines 1421-1487). -/
def parseSolutionResponse (resp : List Char) : SolData :=
  let ts := extractThoughts resp
  { code := extractCode resp,
    thoughts := if ts.isEmpty then defaultThoughts else ts,
    time_complexity := timeComplexityOf resp,
    space_complexity := spaceComplexityOf resp }

/-- `handleMCQResponse(problemInfo, signal)` (lines 907-1110): one
answer-generation network call (only the Gemini variant carries the abort
signal), then `parseMCQResponse` and `generateMCQSolutionCode`.  The
Gemini-variant cancellation (and any other Gemini transport error) is
swallowed by the provider-level catch and surfaces as the generic Gemini
failure message. -/
def handleMCQResponse (cfg : Config) (cl : Clients) (problemInfo : Json)
    (cancel : CancelAt) (resp : List Char) : List NetCall × SolRes :=
  let success : SolRes :=
    let parsed := parseMCQResponse resp problemInfo
    .ok { code := generateMCQSolutionCode parsed,
          thoughts := ["MCQ analysis completed".data],
          time_complexity := "N/A - MCQ Mode".data,
          space_complexity := "N/A - MCQ Mode".data,
          answers := some parsed,
          isMCQ := true }
  match cfg.apiProvider with
  | .openai =>
    if !cl.openaiClient then
      ([], .error "OpenAI API key not configured. Please check your settings.".data)
    else ([⟨.mcqAnswer, .openai⟩], success)
  | .gemini =>
    if !cl.geminiApiKey then
      ([], .error "Gemini API key not configured. Please check your settings.".data)
    else
      match cancel with
      | .no => ([⟨.mcqAnswer, .gemini⟩], success)
      | .before =>
        ([], .error "Failed to process with Gemini API. Please check your API key or try again later.".data)
      | .during =>
        ([⟨.mcqAnswer, .gemini⟩],
         .error "Failed to process with Gemini API. Please check your API key or try again later.".data)
  | .anthropic =>
    if !cl.anthropicClient then
      ([], .error "Anthropic API key not configured. Please check your settings.".data)
    else ([⟨.mcqAnswer, .anthropic⟩], success)

/-- `generateSolutionsHelper(signal)` (lines 1227-1513): in MCQ mode defer to
the MCQ path (`generateMCQSolution`, lines 1515-1536); otherwise require the
stored problem info, issue one synthesis network call, and parse the response.
The function never inspects the signal itself: only the Gemini variant hands
it to `axios`, so for OpenAI and Anthropic the synthesis call is issued even
when the signal is already aborted.  A Gemini cancellation is swallowed by the
provider-level catch into the generic Gemini failure message. -/
def generateSolutionsHelper (cfg : Config) (cl : Clients) (problemInfo : Option Json)
    (cancel : CancelAt) (resp : List Char) : List NetCall × SolRes :=
  if cfg.mode = .mcq then
    match problemInfo with
    | none => ([], .error "No MCQ problem information available".data)
    | some pi => handleMCQResponse cfg cl pi cancel resp
  else
    match problemInfo with
    | none =>
      -- `throw new Error("No problem info available")`, caught by the
      -- function's own catch and returned as the error message.
      ([], .error "No problem info available".data)
    | some _ =>
      match cfg.apiProvider with
      | .openai =>
        if !cl.openaiClient then
          ([], .error "OpenAI API key not configured. Please check your settings.".data)
        else ([⟨.solution, .openai⟩], .ok (parseSolutionResponse resp))
      | .gemini =>
        if !cl.geminiApiKey then
          ([], .error "Gemini API key not configured. Please check your settings.".data)
        else
          match cancel with
          | .no => ([⟨.solution, .gemini⟩], .ok (parseSolutionResponse resp))
          | .before =>
            ([], .error "Failed to generate solution with Gemini API. Please check your API key or try again later.".data)
          | .during =>
            ([⟨.solution, .gemini⟩],
             .error "Failed to generate solution with Gemini API. Please check your API key or try again later.".data)
      | .anthropic =>
        if !cl.anthropicClient then
          ([], .error "Anthropic API key not configured. Please check your settings.".data)
        else ([⟨.solution, .anthropic⟩], .ok (parseSolutionResponse resp))

/-- The extraction stage of `processScreenshotsHelper` (lines 494-804): one
vision network call per provider (again, only Gemini carries the signal),
then the fenced/brace JSON parse chain, then `validateAndFixMCQFormat` in MCQ
mode (OpenAI and Gemini branches only — the Anthropic branch lacks the MCQ
handling and uses the cruder `stripFences` cleanup).  The error strings are
the source's verbatim messages; a Gemini cancellation, parse failure or MCQ
fix-up crash all surface as the one generic Gemini message through the
provider-level catch. -/
def extractionStage (cfg : Config) (cl : Clients) (cancel : CancelAt)
    (resp : List Char) : List NetCall × Except (List Char) Json :=
  let isMCQ := cfg.mode = .mcq
  match cfg.apiProvider with
  | .openai =>
    if !cl.openaiClient then
      ([], .error "OpenAI API key not configured or invalid. Please check your settings.".data)
    else
      ([⟨.extraction, .openai⟩],
       match extractProblemInfo resp with
       | none =>
         .error "Failed to parse problem information. Please try again or use clearer screenshots.".data
       | some info =>
         if isMCQ then
           match validateAndFixMCQFormat info resp with
           | .ok fixed => .ok fixed
           | .error _ =>
             .error "Failed to parse problem information. Please try again or use clearer screenshots.".data
         else .ok info)
  | .gemini =>
    if !cl.geminiApiKey then
      ([], .error "Gemini API key not configured. Please check your settings.".data)
    else
      let geminiFail : Except (List Char) Json :=
        .error "Failed to process with Gemini API. Please check your API key or try again later.".data
      match cancel with
      | .before => ([], geminiFail)
      | .during => ([⟨.extraction, .gemini⟩], geminiFail)
      | .no =>
        ([⟨.extraction, .gemini⟩],
         match extractProblemInfo resp with
         | none => geminiFail
         | some info =>
           if isMCQ then
             match validateAndFixMCQFormat info resp with
             | .ok fixed => .ok fixed
             | .error _ => geminiFail
           else .ok info)
  | .anthropic =>
    if !cl.anthropicClient then
      ([], .error "Anthropic API key not configured. Please check your settings.".data)
    else
      ([⟨.extraction, .anthropic⟩],
       match jsonParse (jsTrim (stripFences resp)) with
       | none =>
         .error "Failed to process with Anthropic API. Please check your API key or try again later.".data
       | some info => .ok info)

/-- The outcome of one `processScreenshotsHelper` run. -/
structure HelperRun where
  calls : List NetCall
  events : List Event
  /-- The value handed to `deps.setProblemInfo` when the run got that far. -/
  storedProblemInfo : Option Json
  clearedExtraQueue : Bool
  result : SolRes

/-- `processScreenshotsHelper(screenshots, signal)` (lines 474-905): run the
extraction stage, store the problem info and announce it, then run the MCQ or
coding synthesis stage; a synthesis failure is re-thrown and caught by the
helper's own catch, which returns the failure message (the thrown values in
the modeled paths are plain `Error`s, so neither the `axios.isCancel` branch
nor the HTTP status branches of that catch fire).  The two `CancelAt`
arguments position the abort of the run's signal relative to the two
stages. -/
def processScreenshotsHelper (cfg : Config) (cl : Clients)
    (cancelExtract cancelSolution : CancelAt)
    (respExtract respSolution : List Char) : HelperRun :=
  let (exCalls, exRes) := extractionStage cfg cl cancelExtract respExtract
  match exRes with
  | .error e =>
    { calls := exCalls, events := [.processingStatus],
      storedProblemInfo := none, clearedExtraQueue := false, result := .error e }
  | .ok info =>
    let isMCQ := cfg.mode = .mcq
    let (synCalls, synRes) :=
      if isMCQ then handleMCQResponse cfg cl info cancelSolution respSolution
      else generateSolutionsHelper cfg cl (some info) cancelSolution respSolution
    match synRes with
    | .ok data =>
      { calls := exCalls ++ synCalls,
        events := [.processingStatus, .processingStatus, .problemExtracted,
                   .processingStatus, .solutionSuccess],
        storedProblemInfo := some info, clearedExtraQueue := true, result := .ok data }
    | .error e =>
      -- `throw new Error(... .error || default)`, caught by the helper's catch.
      let msg := if e.isEmpty then
          (if isMCQ then "Failed to analyze MCQ questions".data
           else "Failed to generate solutions".data)
        else e
      { calls := exCalls ++ synCalls,
        events := [.processingStatus, .processingStatus, .problemExtracted],
        storedProblemInfo := some info, clearedExtraQueue := false, result := .error msg }

/-! ### The debug pipeline (`processExtraScreenshotsHelper`, lines 1538-1851) -/

/-- `/3bt(?:[a-zA-Z]+)?([forall]*?)3bt/` — the debug code-block pattern
(letters-only tag, no whitespace skip). -/
def debugCodePat : RE :=
  REseq [.lit fence3, .opt (RE.plus (.chP asciiLetter)), .grp 1 (.starL anyC), .lit fence3]

/-- Replace the leftmost match of `re` by the literal `rep`
(`String.prototype.replace` with a non-global regex and string replacement;
the replacements used contain no dollar patterns). -/
def replaceFirstRe (re : RE) (rep : List Char) (input : List Char) : List Char :=
  match reFind re input with
  | none => input
  | some m => sliceStr input 0 m.1 ++ rep ++ input.drop m.2.1

/-- `/(?:^|\n)[ ]*(?:[-*•]|\d+\.)[ ]+([^\n]+)/g` — debug bullet lines. -/
def debugBulletPat : RE :=
  REseq [.alt .bos (.lit ['\n']), .star (.lit [' ']), bulletMark,
    RE.plus (.lit [' ']), .grp 1 (RE.plus nonNlC)]

/-- `/^[ ]*(?:[-*•]|\d+\.)[ ]+/` — the marker prefix stripped from each debug
bullet. -/
def debugBulletStripPat : RE :=
  REseq [.bos, .star (.lit [' ']), bulletMark, RE.plus (.lit [' '])]

/-- The debug payload (code, rewritten analysis text, thoughts). -/
structure DebugData where
  code : List Char
  debug_analysis : List Char
  thoughts : List (List Char)
deriving Repr

/-- The response post-processing of the debug helper (lines 1817-1844). -/
def parseDebugResponse (debugContent : List Char) : DebugData :=
  let extractedCode :=
    match reFind debugCodePat debugContent with
    | some m =>
      match grpStr debugContent m.2.2 1 with
      | some g => if g = [] then "// Debug mode - see analysis below".data else jsTrim g
      | none => "// Debug mode - see analysis below".data
    | none => "// Debug mode - see analysis below".data
  let formatted :=
    if !(occurs "# ".data debugContent) && !(occurs "## ".data debugContent) then
      replaceFirstRe (.alt (.liti "explanation".data) (.liti "detailed analysis".data))
        "## Explanation".data
        (replaceFirstRe
          (.alt (.liti "optimizations".data) (.liti "performance improvements".data))
          "## Optimizations".data
          (replaceFirstRe
            (.alt (.liti "code improvements".data)
              (.alt (.liti "improvements".data) (.liti "suggested changes".data)))
            "## Code Improvements".data
            (replaceFirstRe
              (.alt (.liti "issues identified".data)
                (.alt (.liti "problems found".data) (.liti "bugs found".data)))
              "## Issues Identified".data debugContent)))
    else debugContent
  let bullets := reFindAll debugBulletPat formatted
  let thoughts :=
    if bullets.isEmpty then ["Debug analysis based on your screenshots".data]
    else ((bullets.map (fun b =>
      jsTrim (removeFirstRe debugBulletStripPat (matchedStr formatted b)))).take 5)
  { code := extractedCode, debug_analysis := formatted, thoughts := thoughts }

/-- `processExtraScreenshotsHelper(screenshots, signal)`: requires the stored
problem info, issues one debug network call (signal-aware only for Gemini),
and post-processes the response.  The result events and view handling live in
`processScreenshots` (see `settleSolutionsRun`). -/
def processExtraScreenshotsHelper (cfg : Config) (cl : Clients)
    (problemInfo : Option Json) (cancel : CancelAt) (resp : List Char) :
    List NetCall × Except (List Char) DebugData :=
  match problemInfo with
  | none => ([], .error "No problem info available".data)
  | some _ =>
    match cfg.apiProvider with
    | .openai =>
      if !cl.openaiClient then
        ([], .error "OpenAI API key not configured. Please check your settings.".data)
      else ([⟨.debug, .openai⟩], .ok (parseDebugResponse resp))
    | .gemini =>
      if !cl.geminiApiKey then
        ([], .error "Gemini API key not configured. Please check your settings.".data)
      else
        match cancel with
        | .no => ([⟨.debug, .gemini⟩], .ok (parseDebugResponse resp))
        | .before =>
          ([], .error "Failed to process debug request with Gemini API. Please check your API key or try again later.".data)
        | .during =>
          ([⟨.debug, .gemini⟩],
           .error "Failed to process debug request with Gemini API. Please check your API key or try again later.".data)
    | .anthropic =>
      if !cl.anthropicClient then
        ([], .error "Anthropic API key not configured. Please check your settings.".data)
      else ([⟨.debug, .anthropic⟩], .ok (parseDebugResponse resp))

/-! ### `processScreenshots` settlement and the abort-controller slots -/

/-- Settlement of a primary (queue-view) run on a helper **result** (lines
324-348): a failure whose message mentions an API key or a provider name is
reported as `API_KEY_INVALID`, any other failure as the user-facing
`INITIAL_SOLUTION_ERROR`, and both reset the view to `queue`; a success
announces `SOLUTION_SUCCESS` and moves the view to `solutions`. -/
def settleQueueRun (r : SolRes) : List Event × View :=
  match r with
  | .error e =>
    if occurs "API Key".data e || occurs "OpenAI".data e || occurs "Gemini".data e then
      ([.apiKeyInvalid], .queue)
    else ([.initialSolutionError e], .queue)
  | .ok _ => ([.solutionSuccess], .solutions)

/-- Settlement of a primary run on a **thrown** error (the catch at lines
349-368): the raw error is sent on the error channel, then either the
cancellation message or the error message, and the view resets to `queue`. -/
def settleQueueThrown (isCancelErr : Bool) (msg : List Char) : List Event × View :=
  if isCancelErr then
    ([.initialSolutionError msg,
      .initialSolutionError "Processing was canceled by the user.".data], .queue)
  else ([.initialSolutionError msg, .initialSolutionError msg], .queue)

/-- Settlement of a debug (solutions-view) run (lines 444-467): success marks
`hasDebugged` and emits `DEBUG_SUCCESS`; failure emits `DEBUG_ERROR`.
Neither branch touches the view, which stays `solutions`.  The returned
triple is (events, view after settlement, hasDebugged flag update). -/
def settleSolutionsRun (r : Except (List Char) DebugData) :
    List Event × View × Option Bool :=
  match r with
  | .ok _ => ([.debugSuccess], .solutions, some true)
  | .error e => ([.debugError e], .solutions, none)

/-- Does the configured provider have a usable client after the lazy
re-initialization attempt (lines 237-270)? -/
def clientOk (cfg : Config) (cl : Clients) : Bool :=
  match cfg.apiProvider with
  | .openai => cl.openaiClient
  | .gemini => cl.geminiApiKey
  | .anthropic => cl.anthropicClient

/-- A full primary run of `processScreenshots` from the `queue` view with a
non-empty, on-disk screenshot queue: the client check, `INITIAL_START`, the
helper, and the settlement.  Returns the events in order, the view at the
end, and the network calls issued. -/
def primaryRun (cfg : Config) (cl : Clients) (cancelExtract cancelSolution : CancelAt)
    (respExtract respSolution : List Char) : List Event × View × List NetCall :=
  if !clientOk cfg cl then ([.apiKeyInvalid], .queue, [])
  else
    let h := processScreenshotsHelper cfg cl cancelExtract cancelSolution
      respExtract respSolution
    let (settleEvents, finalView) := settleQueueRun h.result
    (.initialStart :: h.events ++ settleEvents, finalView, h.calls)

/-- The two `AbortController` fields of `ProcessingHelper` with the identities
of the tokens they issued: `primary` and `extra` hold the id of the live
controller (if any), `aborted` records every id whose controller was ever
aborted, and `nextId` numbers the controllers in creation order. -/
structure AbortSlots where
  nextId : Nat
  primary : Option Nat
  extra : Option Nat
  aborted : List Nat
deriving DecidableEq, Repr

/-- The fresh state: no controller ever created. -/
def AbortSlots.init : AbortSlots := ⟨0, none, none, []⟩

/-- Lines 296-298: starting a primary run stores a brand-new controller in
the `primary` slot.  The previous controller, if any, is **not** aborted —
the field is simply overwritten. -/
def beginPrimary (s : AbortSlots) : Nat × AbortSlots :=
  (s.nextId, { s with nextId := s.nextId + 1, primary := some s.nextId })

/-- Lines 397-398: starting a debug run stores a brand-new controller in the
`extra` slot, likewise without aborting the previous one. -/
def beginExtra (s : AbortSlots) : Nat × AbortSlots :=
  (s.nextId, { s with nextId := s.nextId + 1, extra := some s.nextId })

/-- The `finally` of the primary branch (line 370): the shared field is
unconditionally cleared when the run settles — even if it meanwhile holds a
newer run's controller. -/
def finishPrimary (s : AbortSlots) : AbortSlots := { s with primary := none }

/-- The `finally` of the debug branch (line 469). -/
def finishExtra (s : AbortSlots) : AbortSlots := { s with extra := none }

/-- `cancelOngoingRequests()` (lines 1853-1876): abort and clear whichever
slots are live; emit the `NO_SCREENSHOTS` reset signal exactly when something
was actually cancelled (it also clears `hasDebugged` and the stored problem
info, not tracked in `AbortSlots`). -/
def cancelOngoingRequests (s : AbortSlots) : AbortSlots × Bool × List Event :=
  let (s1, was1) :=
    match s.primary with
    | some id => ({ s with primary := none, aborted := id :: s.aborted }, true)
    | none => (s, false)
  let (s2, was2) :=
    match s1.extra with
    | some id => ({ s1 with extra := none, aborted := id :: s1.aborted }, true)
    | none => (s1, false)
  let wasCancelled := was1 || was2
  (s2, wasCancelled, if wasCancelled then [.noScreenshots] else [])

/-- The property a fixed question is shown to have. -/
def GoodQuestion (q' : Json) : Prop :=
  jsTruthyOpt (getField q' questionNumberKey) = true ∧
  ∃ of, getField q' optionsKey = some (Json.obj of) ∧ of ≠ []

end S2P

/-! # Theorems

Shared helper lemmas first, then, per claim, its counterexample / theorem /
witness. -/

namespace S2P

theorem occurs_cons (pat : List Char) (c : Char) (t : List Char) :
    occurs pat (c :: t) = (pat.isPrefixOf (c :: t) || occurs pat t) := by
  conv_lhs => rw [occurs]

theorem isPrefixOf_append_of_le {pat s r : List Char} (h : pat.length ≤ s.length) :
    pat.isPrefixOf (s ++ r) = pat.isPrefixOf s := by
  induction pat generalizing s with
  | nil => simp
  | cons a as ih =>
    cases s with
    | nil => simp at h
    | cons b bs =>
      simp only [List.cons_append, List.isPrefixOf_cons₂]
      rw [ih (by simpa using h)]

/-- First occurrence of the fence in `inner ++ fence` is at the very end,
when `inner` contains no fence and does not end in a backtick. -/
theorem splitFirst_fence_append (inner : List Char)
    (h1 : occurs fence3 inner = false)
    (h2 : inner.getLast? ≠ some btick) :
    splitFirst fence3 (inner ++ fence3) = some (inner, []) := by
  induction inner with
  | nil => decide
  | cons c t ih =>
    rw [occurs_cons] at h1
    have hpc : fence3.isPrefixOf (c :: t) = false := by
      cases hx : fence3.isPrefixOf (c :: t)
      · rfl
      · rw [hx] at h1; simp at h1
    have h1t : occurs fence3 t = false := by
      cases hx : occurs fence3 t
      · rfl
      · rw [hx] at h1; simp at h1
    have h2t : t.getLast? ≠ some btick := by
      cases t with
      | nil => simp
      | cons d t' =>
        rw [show (c :: d :: t').getLast? = (d :: t').getLast? from
          List.getLast?_cons_cons] at h2
        exact h2
    have hpre : fence3.isPrefixOf (c :: (t ++ fence3)) = false := by
      match t with
      | [] =>
        have hc : btick ≠ c := by
          intro h
          exact h2 (by rw [List.getLast?_singleton, ← h])
        simp [fence3, List.isPrefixOf_cons₂, beq_iff_eq, hc]
      | [d] =>
        have hd : btick ≠ d := by
          intro h
          exact h2 (by rw [List.getLast?_cons_cons, List.getLast?_singleton, ← h])
        simp [fence3, List.isPrefixOf_cons₂, beq_iff_eq, hd]
      | d :: e :: t' =>
        rw [show c :: (d :: e :: t' ++ fence3) = (c :: d :: e :: t') ++ fence3 by simp,
          isPrefixOf_append_of_le
            (by simp only [fence3, List.length_cons, List.length_nil]; omega)]
        exact hpc
    rw [List.cons_append, splitFirst.eq_def, hpre]
    simp only [Bool.false_eq_true, if_false]
    rw [ih h1t h2t]
    rfl

theorem fence3_isPrefixOf_append (x : List Char) :
    fence3.isPrefixOf (fence3 ++ x) = true := by
  rw [List.isPrefixOf_iff_prefix]
  exact List.prefix_append _ _

theorem tagJson_isPrefixOf_append (x : List Char) :
    tagJson.isPrefixOf (tagJson ++ x) = true := by
  rw [List.isPrefixOf_iff_prefix]
  exact List.prefix_append _ _

/-- Fenced extraction of a `json`-tagged well-behaved block. -/
theorem extractFenced_tagged (inner : List Char)
    (h1 : occurs fence3 inner = false)
    (h2 : inner.getLast? ≠ some btick) :
    extractFenced (fence3 ++ tagJson ++ inner ++ fence3) = some inner := by
  rw [List.append_assoc, List.append_assoc]
  rw [extractFenced, splitFirst.eq_def, fence3_isPrefixOf_append]
  simp only [if_true]
  rw [show (fence3 ++ (tagJson ++ (inner ++ fence3))).drop fence3.length
      = tagJson ++ (inner ++ fence3) from List.drop_left _ _]
  rw [tagJson_isPrefixOf_append]
  simp only [if_true]
  rw [show (tagJson ++ (inner ++ fence3)).drop 4 = inner ++ fence3 from
    List.drop_left' (by rfl)]
  rw [splitFirst_fence_append inner h1 h2]
  rfl

/-- Fenced extraction of an untagged well-behaved block whose content does not
start with the four letters `json`. -/
theorem extractFenced_untagged (inner : List Char)
    (h1 : occurs fence3 inner = false)
    (h2 : inner.getLast? ≠ some btick)
    (hj : tagJson.isPrefixOf inner = false) :
    extractFenced (fence3 ++ inner ++ fence3) = some inner := by
  rw [List.append_assoc]
  rw [extractFenced, splitFirst.eq_def, fence3_isPrefixOf_append]
  simp only [if_true]
  rw [show (fence3 ++ (inner ++ fence3)).drop fence3.length
      = inner ++ fence3 from List.drop_left _ _]
  have hj' : tagJson.isPrefixOf (inner ++ fence3) = false := by
    match inner with
    | [] => decide
    | [a] => simp [tagJson, fence3, btick, List.isPrefixOf_cons₂, beq_iff_eq]
    | [a, b] => simp [tagJson, fence3, btick, List.isPrefixOf_cons₂, beq_iff_eq]
    | [a, b, c] => simp [tagJson, fence3, btick, List.isPrefixOf_cons₂, beq_iff_eq]
    | a :: b :: c :: d :: t =>
      rw [isPrefixOf_append_of_le (by simp [tagJson])]
      exact hj
  rw [hj']
  simp only [Bool.false_eq_true, if_false]
  rw [splitFirst_fence_append inner h1 h2]
  rfl

/-- A trimmed string keeps its first character when that character is not
whitespace. -/
theorem jsTrim_cons_of_not_ws (c : Char) (t : List Char) (hc : jsWs c = false) :
    ∃ u, jsTrim (c :: t) = c :: u := by
  rw [jsTrim]
  rw [List.dropWhile_cons, hc]
  simp only [Bool.false_eq_true, if_false, List.reverse_cons]
  rw [List.dropWhile_append]
  by_cases h : (List.dropWhile jsWs t.reverse).isEmpty
  · rw [if_pos h]
    exact ⟨[], by rw [List.dropWhile_cons, hc]; simp⟩
  · rw [if_neg h]
    exact ⟨(List.dropWhile jsWs t.reverse).reverse, by simp⟩

/-- No JSON document starts with the letter `j`. -/
theorem jsonParse_cons_j (t : List Char) : jsonParse ('j' :: t) = none := rfl

/-- The four letters `json` cannot start a parseable (trimmed) JSON text. -/
theorem not_tagJson_isPrefixOf_of_parses (inner : List Char) (v : Json)
    (h : jsonParse (jsTrim inner) = some v) :
    tagJson.isPrefixOf inner = false := by
  cases inner with
  | nil => decide
  | cons c t =>
    by_cases hc : c = 'j'
    · subst hc
      obtain ⟨u, hu⟩ := jsTrim_cons_of_not_ws 'j' t (by decide)
      rw [hu, jsonParse_cons_j] at h
      exact absurd h (by simp)
    · simp [tagJson, List.isPrefixOf_cons₂, beq_iff_eq]
      intro h'
      exact absurd h'.symm hc

/-- C6, the claim as stated, refuted: the response text
`3btjson{"a":"3bt"}3bt` (writing `3bt` for the three-backtick fence) wraps
the valid JSON document `{"a":"3bt"}` in a `json`-tagged fenced code block,
yet strategy 2 fails — the lazy capture of the extraction regex stops at the
fence occurrence inside the JSON string literal, so the extracted text
`{"a":"` does not parse — while direct parsing of the inner text succeeds.
So strategy 2 does not reproduce the direct parse on every fenced valid-JSON
input. -/
theorem C6_cex :
    jsonParse (jsTrim "\x7b\"a\":\"```\"\x7d".data) =
      some (Json.obj [("a".data, Json.str "```".data)]) ∧
    strategy2 ("```json\x7b\"a\":\"```\"\x7d```".data) = none ∧
    "```json\x7b\"a\":\"```\"\x7d```".data =
      fence3 ++ tagJson ++ "\x7b\"a\":\"```\"\x7d".data ++ fence3 := by
  refine ⟨by rfl, by rfl, by rfl⟩

/-- C6 (amended): for every response text consisting of valid JSON wrapped in
a fenced code block (tagged `json` or untagged), where the inner text contains
no three-backtick fence marker and does not end with a backtick (a valid JSON
text cannot end with a backtick, but the bound is needed because a trailing
backtick would merge with the closing fence), strategy 2 — extract the first
fenced block, then direct-parse its contents — succeeds and produces exactly
the same structured result as parsing the inner text directly (strategy 1 on
the inner text). -/
theorem C6_amended (inner : List Char) (v : Json)
    (h1 : occurs fence3 inner = false)
    (h2 : inner.getLast? ≠ some btick)
    (h3 : jsonParse (jsTrim inner) = some v) :
    strategy2 (fence3 ++ tagJson ++ inner ++ fence3) = some v ∧
    strategy2 (fence3 ++ inner ++ fence3) = some v ∧
    strategy1 inner = some v := by
  have hj := not_tagJson_isPrefixOf_of_parses inner v h3
  refine ⟨?_, ?_, h3⟩
  · rw [strategy2, extractFenced_tagged inner h1 h2]
    exact h3
  · rw [strategy2, extractFenced_untagged inner h1 h2 hj]
    exact h3

/-- Witness: C6_amended applied to the fenced scenario input of the spec. -/
theorem C6_amended_witness :
    strategy2 (fence3 ++ tagJson ++ "\n\x7b\"problem_statement\":\"Sum two numbers\"\x7d\n".data ++ fence3) =
      some (Json.obj [("problem_statement".data, Json.str "Sum two numbers".data)]) ∧
    strategy1 "\n\x7b\"problem_statement\":\"Sum two numbers\"\x7d\n".data =
      some (Json.obj [("problem_statement".data, Json.str "Sum two numbers".data)]) := by
  have h := C6_amended "\n\x7b\"problem_statement\":\"Sum two numbers\"\x7d\n".data
    (Json.obj [("problem_statement".data, Json.str "Sum two numbers".data)])
    (by decide) (by decide) (by rfl)
  exact ⟨h.1, h.2.2⟩

/-! ### C5 — complexity extraction and normalization -/

theorem normalizeCplx_none (d : List Char) : normalizeCplx d none = d := rfl

theorem normalizeCplx_noBigO (d raw : List Char)
    (h : reTest bigOPat (jsTrim raw) = false) :
    normalizeCplx d (some raw) = "O(n) - ".data ++ jsTrim raw := by
  rw [normalizeCplx, h]
  rfl

theorem normalizeCplx_wellFormed (d raw : List Char)
    (h1 : reTest bigOPat (jsTrim raw) = true)
    (h2 : ((jsTrim raw).contains '-' || occurs "because".data (jsTrim raw)) = true) :
    normalizeCplx d (some raw) = jsTrim raw := by
  rw [normalizeCplx, h1]
  have hg : (!(jsTrim raw).contains '-' && !occurs "because".data (jsTrim raw)) = false := by
    rcases Bool.or_eq_true_iff.mp h2 with h | h
    · simp only [h, Bool.not_true, Bool.false_and]
    · simp only [h, Bool.not_true, Bool.and_false]
  simp only [Bool.not_true, Bool.false_eq_true, if_false, hg]

/-- C5, the claim as stated, refuted: when the synthesis response text is
exactly `Time complexity: O(n log n) because we sort first.` (the claim's
scenario text), the extraction regex does **not** match — its lookahead
requires a literal newline after the complexity line — so the conservative
default is substituted, and `time_complexity` is not the scenario's expected
string. -/
theorem C5_cex :
    timeComplexityOf "Time complexity: O(n log n) because we sort first.".data =
      defaultTimeCplx ∧
    defaultTimeCplx ≠ "O(n log n) because we sort first.".data := by
  refine ⟨by rfl, by decide⟩

/-- C5 (amended): complexity normalization behaves as claimed — default
linear-time/space estimate when no complexity line is found, canonical
`O(n) - explanation` shape when the extracted text has no Big-O token, and an
already well-formed extracted value (Big-O token plus a dash or the word
`because`) left unchanged — and the scenario text yields exactly
`O(n log n) because we sort first.` provided the complexity line is followed
by a newline (which the regex's lookahead requires; the claim as stated fails
on the bare scenario text, see the counterexample). -/
theorem C5_amended :
    (∀ resp : List Char, extractCplx timePat resp = none →
       timeComplexityOf resp = defaultTimeCplx) ∧
    (∀ resp : List Char, extractCplx spacePat resp = none →
       spaceComplexityOf resp = defaultSpaceCplx) ∧
    (∀ resp t : List Char, extractCplx timePat resp = some t →
       reTest bigOPat (jsTrim t) = false →
       timeComplexityOf resp = "O(n) - ".data ++ jsTrim t) ∧
    (∀ resp t : List Char, extractCplx spacePat resp = some t →
       reTest bigOPat (jsTrim t) = false →
       spaceComplexityOf resp = "O(n) - ".data ++ jsTrim t) ∧
    (∀ resp t : List Char, extractCplx timePat resp = some t →
       reTest bigOPat (jsTrim t) = true →
       ((jsTrim t).contains '-' || occurs "because".data (jsTrim t)) = true →
       timeComplexityOf resp = jsTrim t) ∧
    (∀ resp t : List Char, extractCplx spacePat resp = some t →
       reTest bigOPat (jsTrim t) = true →
       ((jsTrim t).contains '-' || occurs "because".data (jsTrim t)) = true →
       spaceComplexityOf resp = jsTrim t) ∧
    timeComplexityOf "Time complexity: O(n log n) because we sort first.\n".data =
      "O(n log n) because we sort first.".data := by
  refine ⟨?_, ?_, ?_, ?_, ?_, ?_, by rfl⟩
  · intro resp h; rw [timeComplexityOf, h]; rfl
  · intro resp h; rw [spaceComplexityOf, h]; rfl
  · intro resp t h hb; rw [timeComplexityOf, h, normalizeCplx_noBigO _ _ hb]
  · intro resp t h hb; rw [spaceComplexityOf, h, normalizeCplx_noBigO _ _ hb]
  · intro resp t h hb hw; rw [timeComplexityOf, h, normalizeCplx_wellFormed _ _ hb hw]
  · intro resp t h hb hw; rw [spaceComplexityOf, h, normalizeCplx_wellFormed _ _ hb hw]

/-- Witness: C5_amended applied at concrete responses for each normalization
case. -/
theorem C5_amended_witness :
    timeComplexityOf "no complexity mentioned here".data = defaultTimeCplx ∧
    timeComplexityOf "Time complexity: linear scan of the input\n".data =
      "O(n) - ".data ++ jsTrim "linear scan of the input".data ∧
    timeComplexityOf "Time complexity: O(n log n) because we sort first.\nSpace complexity: O(1) because we swap in place.\n".data =
      jsTrim "O(n log n) because we sort first.".data := by
  refine ⟨C5_amended.1 _ (by rfl), ?_, ?_⟩
  · exact C5_amended.2.2.1 _ "linear scan of the input".data (by rfl) (by rfl)
  · exact C5_amended.2.2.2.2.1 _ "O(n log n) because we sort first.".data
      (by rfl) (by rfl) (by rfl)

/-! ### C7 — option-key normalization -/

theorem insertJs_of_not_mem (fields : List (List Char × Json)) (k : List Char) (v : Json)
    (h : ∀ e ∈ fields, e.1 ≠ k) : insertJs fields k v = fields ++ [(k, v)] := by
  induction fields with
  | nil => rfl
  | cons e rest ih =>
    obtain ⟨k', v'⟩ := e
    rw [insertJs, if_neg (by exact h (k', v') (by simp))]
    rw [ih (fun e he => h e (by simp [he]))]
    rfl

theorem foldl_insertJs_nodup (entries : List (List Char × Json)) :
    ∀ acc : List (List Char × Json),
    (acc.map Prod.fst ++ entries.map (fun e => normalizeOptionKey e.1)).Nodup →
    entries.foldl (fun acc e => insertJs acc (normalizeOptionKey e.1) e.2) acc =
      acc ++ entries.map (fun e => (normalizeOptionKey e.1, e.2)) := by
  induction entries with
  | nil => intro acc _; simp
  | cons e rest ih =>
    intro acc hnd
    obtain ⟨k, v⟩ := e
    simp only [List.map_cons] at hnd
    have hmem : normalizeOptionKey k ∉ acc.map Prod.fst := by
      have hd := (List.nodup_append.mp hnd).2.2
      intro hc
      exact hd hc (by simp)
    rw [List.foldl_cons]
    rw [show insertJs acc (normalizeOptionKey k) v = acc ++ [(normalizeOptionKey k, v)] from
      insertJs_of_not_mem _ _ _ (fun e he hk => hmem (hk ▸ List.mem_map_of_mem Prod.fst he))]
    rw [ih (acc ++ [(normalizeOptionKey k, v)]) (by
      simpa [List.append_assoc] using hnd)]
    simp

/-- C7, the claim as stated, refuted: in the options map with keys `1` and
`A`, both keys normalize to `A`, and the later entry overwrites the earlier
one — the result is the single entry `A ↦ London`, so the value `Paris`
associated with the key `1` is not preserved. -/
theorem C7_cex :
    normalizeOptionsJs
        [("1".data, Json.str "Paris".data), ("A".data, Json.str "London".data)] =
      [("A".data, Json.str "London".data)] ∧
    (normalizeOptionsJs
        [("1".data, Json.str "Paris".data), ("A".data, Json.str "London".data)]).length = 1 := by
  exact ⟨rfl, rfl⟩

/-- C7 (amended): key normalization maps the digit keys `1`-`4` to the letters
`A`-`D`, upper-cases the lowercase letter keys `a`-`d` (leaving `A`-`D` as
they are), and passes every other key through unchanged — and, **provided no
two keys of the map normalize to the same letter**, the rebuilt options map
pairs each normalized key with the original key's value (on a collision the
later entry overwrites the earlier one, see the counterexample).  In
particular the entry `1 ↦ Paris` becomes `A ↦ Paris`. -/
theorem C7_amended (entries : List (List Char × Json))
    (h : (entries.map (fun e => normalizeOptionKey e.1)).Nodup) :
    normalizeOptionsJs entries = entries.map (fun e => (normalizeOptionKey e.1, e.2)) ∧
    (normalizeOptionKey "1".data = "A".data ∧ normalizeOptionKey "2".data = "B".data ∧
     normalizeOptionKey "3".data = "C".data ∧ normalizeOptionKey "4".data = "D".data) ∧
    (normalizeOptionKey "a".data = "A".data ∧ normalizeOptionKey "b".data = "B".data ∧
     normalizeOptionKey "c".data = "C".data ∧ normalizeOptionKey "d".data = "D".data) ∧
    (normalizeOptionKey "A".data = "A".data ∧ normalizeOptionKey "D".data = "D".data) ∧
    (∀ k : List Char, k.length ≠ 1 → normalizeOptionKey k = k) ∧
    (∀ c : Char, ¬('1' ≤ c ∧ c ≤ '4') → isLoAD (asciiLower c) = false →
       normalizeOptionKey [c] = [c]) ∧
    normalizeOptionsJs [("1".data, Json.str "Paris".data)] =
      [("A".data, Json.str "Paris".data)] := by
  refine ⟨?_, by decide, by decide, by decide, ?_, ?_, rfl⟩
  · rw [normalizeOptionsJs, foldl_insertJs_nodup entries [] (by simpa using h)]
    rfl
  · intro k hk
    match k with
    | [] => rfl
    | [c] => exact absurd (by simp : ([c] : List Char).length = 1) hk
    | a :: b :: t => rfl
  · intro c h1 h2
    rw [normalizeOptionKey, if_neg h1, if_neg (by simp [h2])]

/-- Witness: C7_amended applied to a two-entry, collision-free options map. -/
theorem C7_amended_witness :
    normalizeOptionsJs
        [("1".data, Json.str "Paris".data), ("b".data, Json.str "London".data)] =
      [("A".data, Json.str "Paris".data), ("B".data, Json.str "London".data)] ∧
    normalizeOptionKey "xyz".data = "xyz".data := by
  have h := C7_amended
    [("1".data, Json.str "Paris".data), ("b".data, Json.str "London".data)] (by decide)
  exact ⟨h.1, h.2.2.2.2.1 "xyz".data (by decide)⟩

/-! ### C8 — answer backfill from the question set -/

theorem lookupField_insertJs_self (flds : List (List Char × Json)) (k : List Char) (v : Json) :
    lookupField (insertJs flds k v) k = some v := by
  induction flds with
  | nil => simp [insertJs, lookupField]
  | cons e r ih =>
    obtain ⟨k', v'⟩ := e
    by_cases hk : k' = k
    · simp [insertJs, lookupField, hk]
    · simp only [insertJs, lookupField, if_neg hk]
      exact ih

theorem lookupField_insertJs_ne (flds : List (List Char × Json)) (k k' : List Char) (v : Json)
    (h : k' ≠ k) : lookupField (insertJs flds k v) k' = lookupField flds k' := by
  induction flds with
  | nil =>
    have hk : k ≠ k' := fun he => h he.symm
    simp [insertJs, lookupField, hk]
  | cons e r ih =>
    obtain ⟨a, b⟩ := e
    by_cases ha : a = k
    · subst ha
      have hk : a ≠ k' := fun he => h he.symm
      simp [insertJs, lookupField, hk]
    · simp only [insertJs, if_neg ha, lookupField]
      by_cases ha' : a = k'
      · simp [ha']
      · simp only [if_neg ha', ih]

theorem setFieldJ_obj (f : List (List Char × Json)) (k : List Char) (v : Json) :
    setFieldJ (Json.obj f) k v = Json.obj (insertJs f k v) := rfl

theorem getField_setFieldJ_self (f : List (List Char × Json)) (k : List Char) (v : Json) :
    getField (setFieldJ (Json.obj f) k v) k = some v := by
  simp [setFieldJ, getField, lookupField_insertJs_self]

theorem getField_setFieldJ_ne (f : List (List Char × Json)) (k k' : List Char) (v : Json)
    (h : k' ≠ k) : getField (setFieldJ (Json.obj f) k v) k' = getField (Json.obj f) k' := by
  simp [setFieldJ, getField, lookupField_insertJs_ne f k k' v h]

/-- A truthy optional value is `some` of its default-read. -/
theorem jsTruthyOpt_some_getD (o : Option Json) (h : jsTruthyOpt o = true) :
    o = some (o.getD .null) := by
  cases o with
  | none => simp [jsTruthyOpt] at h
  | some v => rfl

/-- C8 (confirmed): for every parsed answer list and question set, at every
index `i` where both an answer (an object) and a question (a truthy value)
exist, the backfill loop copies the question's `question_text` (or the empty
string when the question has none) into an answer whose own `question_text`
is absent/falsy, and leaves a present one alone; it copies the question's
`options` into an answer without options when the question has some, and
otherwise leaves the answer's options untouched; and answers at indices with
no corresponding question are returned entirely unchanged. -/
theorem C8_backfill (answers questions : List Json) (i : Nat)
    (aiF : List (List Char × Json)) (qi : Json)
    (ha : answers.get? i = some (Json.obj aiF))
    (hq : questions.get? i = some qi)
    (hqt : jsTruthy qi = true) :
    (∃ ri, (backfillAnswers answers (Json.arr questions)).get? i = some ri ∧
      (jsTruthyOpt (getField (Json.obj aiF) questionTextKey) = false →
        getField ri questionTextKey =
          some (if jsTruthyOpt (getField qi questionTextKey) then
                  (getField qi questionTextKey).getD .null
                else .str [])) ∧
      (jsTruthyOpt (getField (Json.obj aiF) questionTextKey) = true →
        getField ri questionTextKey = getField (Json.obj aiF) questionTextKey) ∧
      (jsTruthyOpt (getField (Json.obj aiF) optionsKey) = false →
        jsTruthyOpt (getField qi optionsKey) = true →
        getField ri optionsKey = getField qi optionsKey) ∧
      (jsTruthyOpt (getField (Json.obj aiF) optionsKey) = false →
        jsTruthyOpt (getField qi optionsKey) = false →
        getField ri optionsKey = getField (Json.obj aiF) optionsKey) ∧
      (jsTruthyOpt (getField (Json.obj aiF) optionsKey) = true →
        getField ri optionsKey = getField (Json.obj aiF) optionsKey)) ∧
    (∀ j aj, answers.get? j = some aj → questions.get? j = none →
      (backfillAnswers answers (Json.arr questions)).get? j = some aj) := by
  have hne : questionTextKey ≠ optionsKey := by decide
  have hne' : optionsKey ≠ questionTextKey := by decide
  constructor
  · rw [backfillAnswers, List.get?_map, List.get?_enum, ha]
    simp only [Option.map_some']
    rw [show jsIndex (Json.arr questions) i = questions.get? i from rfl, hq]
    simp only [hqt, if_true]
    cases ht : jsTruthyOpt (getField (Json.obj aiF) questionTextKey) with
    | true =>
      simp only [ht, Bool.not_true, Bool.false_eq_true, if_false]
      cases ho : jsTruthyOpt (getField (Json.obj aiF) optionsKey) with
      | true =>
        simp only [ho, Bool.not_true, Bool.false_eq_true, false_and, if_false]
        refine ⟨Json.obj aiF, rfl, ?_, ?_, ?_, ?_, ?_⟩ <;> intro h1
        · first | exact h1.elim | simp at h1
        · rfl
        · first | exact h1.elim | simp at h1
        · first | exact h1.elim | simp at h1
        · rfl
      | false =>
        cases hqo : jsTruthyOpt (getField qi optionsKey) with
        | true =>
          simp only [ho, hqo, Bool.not_false, true_and, if_true, setFieldJ_obj]
          refine ⟨_, rfl, ?_, ?_, ?_, ?_, ?_⟩ <;> intro h1
          · first | exact h1.elim | simp at h1
          · rw [getField, lookupField_insertJs_ne _ _ _ _ hne]
            rfl
          · intro _
            rw [getField, lookupField_insertJs_self, ← jsTruthyOpt_some_getD _ hqo]
          · intro h2
            first | exact h2.elim | simp at h2
          · first | exact h1.elim | simp at h1
        | false =>
          simp only [ho, hqo, Bool.not_false, true_and, Bool.false_eq_true, if_false]
          refine ⟨Json.obj aiF, rfl, ?_, ?_, ?_, ?_, ?_⟩ <;> intro h1
          · first | exact h1.elim | simp at h1
          · rfl
          · intro h2
            first | exact h2.elim | simp at h2
          · intro _; rfl
          · first | exact h1.elim | simp at h1
    | false =>
      simp only [ht, Bool.not_false, if_true, setFieldJ_obj]
      have hAfterTextOpts :
          lookupField (insertJs aiF questionTextKey
              (if jsTruthyOpt (getField qi questionTextKey) then
                 (getField qi questionTextKey).getD .null
               else .str [])) optionsKey = lookupField aiF optionsKey :=
        lookupField_insertJs_ne _ _ _ _ hne'
      rw [show ∀ x, getField (Json.obj x) optionsKey = lookupField x optionsKey from
        fun x => rfl, hAfterTextOpts]
      rw [show lookupField aiF optionsKey = getField (Json.obj aiF) optionsKey from rfl]
      cases ho : jsTruthyOpt (getField (Json.obj aiF) optionsKey) with
      | true =>
        simp only [ho, Bool.not_true, Bool.false_eq_true, false_and, if_false]
        refine ⟨_, rfl, ?_, ?_, ?_, ?_, ?_⟩ <;> intro h1
        · rw [getField, lookupField_insertJs_self]
        · first | exact h1.elim | simp at h1
        · intro h2
          first | exact h1.elim | simp at h1
        · intro h2
          first | exact h1.elim | simp at h1
        · rw [getField, lookupField_insertJs_ne _ _ _ _ hne']
          rfl
      | false =>
        cases hqo : jsTruthyOpt (getField qi optionsKey) with
        | true =>
          simp only [ho, hqo, Bool.not_false, true_and, if_true, setFieldJ_obj]
          refine ⟨_, rfl, ?_, ?_, ?_, ?_, ?_⟩ <;> intro h1
          · rw [getField, lookupField_insertJs_ne _ _ _ _ hne,
              lookupField_insertJs_self]
          · first | exact h1.elim | simp at h1
          · intro _
            rw [getField, lookupField_insertJs_self, ← jsTruthyOpt_some_getD _ hqo]
          · intro h2
            first | exact h2.elim | simp at h2
          · first | exact h1.elim | simp at h1
        | false =>
          simp only [ho, hqo, Bool.not_false, true_and, Bool.false_eq_true, if_false]
          refine ⟨_, rfl, ?_, ?_, ?_, ?_, ?_⟩ <;> intro h1
          · rw [getField, lookupField_insertJs_self]
          · first | exact h1.elim | simp at h1
          · intro h2
            first | exact h2.elim | simp at h2
          · intro _
            rw [getField, lookupField_insertJs_ne _ _ _ _ hne']
            rfl
          · first | exact h1.elim | simp at h1
  · intro j aj haj hqj
    rw [backfillAnswers, List.get?_map, List.get?_enum, haj]
    simp only [Option.map_some']
    rw [show jsIndex (Json.arr questions) j = questions.get? j from rfl, hqj]

/-- Witness: C8_backfill applied to a one-answer, one-question instance where
the answer lacks both `question_text` and `options`. -/
theorem C8_backfill_witness :
    ∃ ri,
      (backfillAnswers [Json.obj [("correct_answer".data, Json.str "B".data)]]
        (Json.arr [Json.obj [(questionTextKey, Json.str "Capital?".data),
          (optionsKey, Json.obj [("A".data, Json.str "Paris".data)])]])).get? 0 = some ri ∧
      getField ri questionTextKey = some (Json.str "Capital?".data) ∧
      getField ri optionsKey = some (Json.obj [("A".data, Json.str "Paris".data)]) := by
  have h := C8_backfill [Json.obj [("correct_answer".data, Json.str "B".data)]]
    [Json.obj [(questionTextKey, Json.str "Capital?".data),
      (optionsKey, Json.obj [("A".data, Json.str "Paris".data)])]]
    0 [("correct_answer".data, Json.str "B".data)]
    (Json.obj [(questionTextKey, Json.str "Capital?".data),
      (optionsKey, Json.obj [("A".data, Json.str "Paris".data)])])
    rfl rfl rfl
  obtain ⟨⟨ri, hri, hp1, _, hp3, _, _⟩, _⟩ := h
  refine ⟨ri, hri, ?_, ?_⟩
  · have h1 := hp1 rfl
    simpa using h1
  · have h3 := hp3 rfl rfl
    simpa using h3

/-! ### C9 — totality and result shape of `parseMCQResponse` -/

/-- C9, the claim as stated, refuted: on the content
`{"foo":1}` (valid JSON with no `answers` key), `parseMCQResponse` returns
the parsed object as-is — an object **without** an `answers` array — so the
returned object does not always contain an answers array. -/
theorem C9_cex :
    parseMCQResponse "\x7b\"foo\":1\x7d".data (Json.obj [(questionsKey, Json.arr [])]) =
      Json.obj [("foo".data, Json.num "1".data)] ∧
    getField
      (parseMCQResponse "\x7b\"foo\":1\x7d".data (Json.obj [(questionsKey, Json.arr [])]))
      "answers".data = none := by
  exact ⟨rfl, rfl⟩

/-- C9 (amended): `parseMCQResponse` never raises (every JavaScript path is
wrapped by its try/catch, which the total model reflects) and always returns
an object; when the brace-extraction and `JSON.parse` succeed, the parsed
object itself is returned (backfilled), so it contains an `answers` array
exactly when the parsed JSON did — and is returned entirely as-is when it has
no `answers` field (the counterexample's case); on every other path the
result carries an `answers` array, possibly empty. -/
theorem C9_amended (content : List Char) (pi : Json) :
    (∃ jt parsed, extractBraces content = some jt ∧ jsonParse jt = some parsed ∧
       (getField (parseMCQResponse content pi) "answers".data).isSome =
         (getField parsed "answers".data).isSome ∧
       (getField parsed "answers".data = none → parseMCQResponse content pi = parsed)) ∨
    (∃ l, getField (parseMCQResponse content pi) "answers".data = some (Json.arr l)) := by
  cases hb : extractBraces content with
  | none =>
    right
    rw [parseMCQResponse.eq_def, hb]
    exact ⟨_, rfl⟩
  | some jt =>
    cases hp : jsonParse jt with
    | none =>
      right
      rw [parseMCQResponse.eq_def, hb]
      simp only [hp]
      exact ⟨[], rfl⟩
    | some parsed =>
      left
      have hres : parseMCQResponse content pi =
          (match getField parsed "answers".data, getField pi questionsKey with
           | some (.arr answers), some qs =>
             if jsTruthy qs then
               setFieldJ parsed "answers".data (.arr (backfillAnswers answers qs))
             else parsed
           | _, _ => parsed) := by
        rw [parseMCQResponse.eq_def, hb]
        simp only [hp]
      refine ⟨jt, parsed, rfl, hp, ?_⟩
      rcases hav : getField parsed "answers".data with _ | av
      · have hres' : parseMCQResponse content pi = parsed := by rw [hres, hav]
        rw [hres', hav]
        exact ⟨rfl, fun _ => rfl⟩
      · rcases av with _ | b | n | s | l | f
        case arr =>
          rcases hqf : getField pi questionsKey with _ | qs
          · have hres' : parseMCQResponse content pi = parsed := by rw [hres, hav, hqf]
            rw [hres', hav]
            exact ⟨rfl, fun h => by simp at h⟩
          · cases hq : jsTruthy qs with
            | false =>
              have hres' : parseMCQResponse content pi = parsed := by
                rw [hres, hav, hqf]
                simp only [hq, Bool.false_eq_true, if_false]
              rw [hres', hav]
              exact ⟨rfl, fun h => by simp at h⟩
            | true =>
              obtain ⟨flds, hpf⟩ : ∃ flds, parsed = Json.obj flds := by
                cases parsed <;> simp [getField] at hav ⊢
              have hres' : parseMCQResponse content pi =
                  setFieldJ parsed "answers".data (.arr (backfillAnswers l qs)) := by
                rw [hres, hav, hqf]
                simp only [hq, if_true]
              refine ⟨?_, fun h => by simp at h⟩
              rw [hres', hpf, getField_setFieldJ_self]
              rfl
        all_goals
          have hres' : parseMCQResponse content pi = parsed := by rw [hres, hav]
          rw [hres', hav]
          exact ⟨rfl, fun h => by simp at h⟩

/-! ### C10 — shape of `validateAndFixMCQFormat` results -/

theorem toDigitsCore_ne_nil (b : Nat) : ∀ (fuel n : Nat) (ds : List Char), ds ≠ [] →
    Nat.toDigitsCore b fuel n ds ≠ [] := by
  intro fuel
  induction fuel with
  | zero => intro n ds h; exact h
  | succ fuel ih =>
    intro n ds h
    rw [Nat.toDigitsCore]
    split
    · simp
    · exact ih _ _ (by simp)

theorem natLit_ne_nil (n : Nat) : natLit n ≠ [] := by
  rw [natLit, Nat.toDigits, Nat.toDigitsCore]
  split
  · simp
  · exact toDigitsCore_ne_nil 10 _ _ _ (by simp)

theorem jsTruthy_of_entries_ne_nil (j : Json) (h : jsEntries j ≠ []) :
    jsTruthy j = true := by
  cases j with
  | null => simp [jsEntries] at h
  | bool b => simp [jsEntries] at h
  | num l => simp [jsEntries] at h
  | str s =>
    simp only [jsEntries] at h
    have hs : s ≠ [] := by
      intro hs; rw [hs] at h; simp [List.enum] at h
    simp [jsTruthy, hs]
  | arr l => rfl
  | obj f => rfl

theorem insertJs_ne_nil (f : List (List Char × Json)) (k : List Char) (v : Json) :
    insertJs f k v ≠ [] := by
  cases f with
  | nil => simp [insertJs]
  | cons e r =>
    obtain ⟨k', v'⟩ := e
    rw [insertJs]
    split <;> simp

theorem foldl_insertJs_ne_nil (l : List (List Char × Json)) :
    ∀ acc : List (List Char × Json), acc ≠ [] →
    l.foldl (fun acc e => insertJs acc (normalizeOptionKey e.1) e.2) acc ≠ [] := by
  induction l with
  | nil => intro acc h; exact h
  | cons e r ih =>
    intro acc _
    rw [List.foldl_cons]
    exact ih _ (insertJs_ne_nil _ _ _)

theorem normalizeOptionsJs_ne_nil (entries : List (List Char × Json)) (h : entries ≠ []) :
    normalizeOptionsJs entries ≠ [] := by
  cases entries with
  | nil => exact absurd rfl h
  | cons e r =>
    rw [normalizeOptionsJs, List.foldl_cons]
    exact foldl_insertJs_ne_nil r _ (insertJs_ne_nil _ _ _)

/-- A question object carrying a non-empty options value is fixed
successfully: it keeps (or gains) a truthy `question_number` and ends with a
non-empty normalized options object. -/
theorem fixQuestion_ok (i : Nat) (qf : List (List Char × Json)) (opts : Json)
    (hof : lookupField qf optionsKey = some opts)
    (hoe : jsEntries opts ≠ []) :
    ∃ q', fixQuestion i (Json.obj qf) = .ok q' ∧ GoodQuestion q' := by
  have htro : jsTruthy opts = true := jsTruthy_of_entries_ne_nil _ hoe
  have hkne : questionNumberKey ≠ optionsKey := by decide
  have hkne' : optionsKey ≠ questionNumberKey := by decide
  have main : ∀ q1f : List (List Char × Json),
      lookupField q1f optionsKey = some opts →
      jsTruthyOpt (lookupField q1f questionNumberKey) = true →
      GoodQuestion (Json.obj (insertJs q1f optionsKey
        (.obj (normalizeOptionsJs (jsEntries opts))))) := by
    intro q1f h1 h2
    constructor
    · rw [getField, lookupField_insertJs_ne _ _ _ _ hkne]
      exact h2
    · exact ⟨normalizeOptionsJs (jsEntries opts),
        by rw [getField, lookupField_insertJs_self],
        normalizeOptionsJs_ne_nil _ hoe⟩
  cases hn : jsTruthyOpt (getField (Json.obj qf) questionNumberKey) with
  | true =>
    have heq : fixQuestion i (Json.obj qf) =
        .ok (Json.obj (insertJs qf optionsKey
          (.obj (normalizeOptionsJs (jsEntries opts))))) := by
      rw [fixQuestion]
      simp only [hn, Bool.not_true, Bool.false_eq_true, if_false]
      rw [show getField (Json.obj qf) optionsKey = some opts from hof]
      rw [if_neg (by
        simp only [jsTruthyOpt, htro, Bool.not_true, Option.getD_some, Bool.false_or]
        simp [List.length_eq_zero, hoe])]
      rfl
    exact ⟨_, heq, main qf hof hn⟩
  | false =>
    have hq1 : lookupField (insertJs qf questionNumberKey (.str (natLit (i + 1))))
        optionsKey = some opts := by
      rw [lookupField_insertJs_ne _ _ _ _ hkne']
      exact hof
    have heq : fixQuestion i (Json.obj qf) =
        .ok (Json.obj (insertJs (insertJs qf questionNumberKey (.str (natLit (i + 1))))
          optionsKey (.obj (normalizeOptionsJs (jsEntries opts))))) := by
      rw [fixQuestion]
      simp only [hn, Bool.not_false, if_true, setFieldJ_obj]
      rw [show getField (Json.obj (insertJs qf questionNumberKey (.str (natLit (i + 1)))))
          optionsKey = some opts from hq1]
      rw [if_neg (by
        simp only [jsTruthyOpt, htro, Bool.not_true, Option.getD_some, Bool.false_or]
        simp [List.length_eq_zero, hoe])]
      rfl
    refine ⟨_, heq, main _ hq1 ?_⟩
    rw [lookupField_insertJs_self]
    simp only [jsTruthyOpt, jsTruthy]
    simp [natLit_ne_nil]

/-- The whole fix loop succeeds on a list of questions with non-empty
options, preserving the length and establishing `GoodQuestion` throughout. -/
theorem fixQuestions_ok (qs : List Json) :
    ∀ i : Nat,
    (∀ q ∈ qs, ∃ qf opts, q = Json.obj qf ∧
        lookupField qf optionsKey = some opts ∧ jsEntries opts ≠ []) →
    ∃ qs', fixQuestions i qs = .ok qs' ∧ qs'.length = qs.length ∧
      ∀ q' ∈ qs', GoodQuestion q' := by
  induction qs with
  | nil => intro i _; exact ⟨[], rfl, rfl, by simp⟩
  | cons q rest ih =>
    intro i hq
    obtain ⟨qf, opts, hqe, hof, hoe⟩ := hq q (by simp)
    obtain ⟨q', hq', hgood⟩ := fixQuestion_ok i qf opts hof hoe
    obtain ⟨rest', hrest', hlen, hgoods⟩ := ih (i + 1) (fun p hp => hq p (by simp [hp]))
    refine ⟨q' :: rest', ?_, by simp [hlen], ?_⟩
    · rw [fixQuestions, hqe, hq', hrest']
    · intro p hp
      rcases List.mem_cons.mp hp with h | h
      · rw [h]; exact hgood
      · exact hgoods p h

/-- C10, the claim as stated, refuted: on an input with no questions array
and the raw text `1. What?`, the raw-text question extraction produces one
question whose options map is **empty** — so not every question in the result
has a non-empty options map. -/
theorem C10_cex :
    validateAndFixMCQFormat (Json.obj []) "1. What?".data =
      .ok (Json.obj [(questionsKey, Json.arr [Json.obj
        [(questionNumberKey, Json.str "1".data),
         (questionTextKey, Json.str "What?".data),
         (optionsKey, Json.obj [])]])]) ∧
    jsEntries (Json.obj []) = [] := by
  exact ⟨rfl, rfl⟩

/-- C10 (amended): for every input object whose `questions` field is a
non-empty array of objects, each carrying an options value with at least one
enumerable entry, `validateAndFixMCQFormat` succeeds and returns the object
with the same number of questions, each having a truthy `question_number` and
a non-empty (normalized) options object.  For inputs outside this shape the
claim fails: the raw-text extraction fallback can produce questions with
empty options (the counterexample), and a question lacking options whose
`question_text` is not a string makes the helper throw. -/
theorem C10_amended (flds : List (List Char × Json)) (qs : List Json) (raw : List Char)
    (hqs : lookupField flds questionsKey = some (Json.arr qs))
    (hne : qs ≠ [])
    (hq : ∀ q ∈ qs, ∃ qf opts, q = Json.obj qf ∧
        lookupField qf optionsKey = some opts ∧ jsEntries opts ≠ []) :
    ∃ qs', validateAndFixMCQFormat (Json.obj flds) raw =
        .ok (Json.obj (insertJs flds questionsKey (Json.arr qs'))) ∧
      qs'.length = qs.length ∧ qs' ≠ [] ∧
      ∀ q' ∈ qs', jsTruthyOpt (getField q' questionNumberKey) = true ∧
        ∃ of, getField q' optionsKey = some (Json.obj of) ∧ of ≠ [] := by
  obtain ⟨qs', hfix, hlen, hgood⟩ := fixQuestions_ok qs 0 hq
  refine ⟨qs', ?_, hlen, ?_, hgood⟩
  · rw [validateAndFixMCQFormat]
    rw [show getField (Json.obj flds) questionsKey = some (Json.arr qs) from hqs]
    rw [if_neg (by
      simp only [jsTruthy, jsTruthyOpt, Bool.true_and]
      simp [List.isEmpty_iff, hne])]
    show (match fixQuestions 0 qs with
      | Except.error e => Except.error e
      | Except.ok fixed =>
        Except.ok (setFieldJ (Json.obj flds) questionsKey (Json.arr fixed))) =
      Except.ok (Json.obj (insertJs flds questionsKey (Json.arr qs')))
    rw [hfix]
    rfl
  · intro h
    rw [h] at hlen
    exact hne (List.length_eq_zero.mp hlen.symm)

/-- Witness: C10_amended applied to a single question with one option. -/
theorem C10_amended_witness :
    ∃ qs', validateAndFixMCQFormat
        (Json.obj [(questionsKey, Json.arr [Json.obj
          [(optionsKey, Json.obj [("1".data, Json.str "Paris".data)])]])]) "".data =
      .ok (Json.obj (insertJs [(questionsKey, Json.arr [Json.obj
          [(optionsKey, Json.obj [("1".data, Json.str "Paris".data)])]])]
        questionsKey (Json.arr qs'))) ∧
      qs'.length = 1 := by
  obtain ⟨qs', hres, hlen, _, _⟩ := C10_amended
    [(questionsKey, Json.arr [Json.obj
      [(optionsKey, Json.obj [("1".data, Json.str "Paris".data)])]])]
    [Json.obj [(optionsKey, Json.obj [("1".data, Json.str "Paris".data)])]]
    "".data rfl (by simp)
    (by
      intro q hqm
      simp only [List.mem_singleton] at hqm
      exact ⟨[(optionsKey, Json.obj [("1".data, Json.str "Paris".data)])],
        Json.obj [("1".data, Json.str "Paris".data)], hqm, rfl, by simp [jsEntries]⟩)
  exact ⟨qs', hres, hlen⟩

/-! ### C1 — token checks before stage requests -/

/-- C1, the claim as stated, refuted: with the OpenAI provider, problem info
already extracted, and the cancellation token already canceled before the
synthesis stage begins, `generateSolutionsHelper` still issues its synthesis
network call — the function never consults the token, and the OpenAI SDK call
is not handed the abort signal. -/
theorem C1_cex :
    (generateSolutionsHelper ⟨.openai, .coding⟩ ⟨true, true, true⟩
      (some (Json.obj [])) .before "whatever".data).1 =
      [⟨.solution, .openai⟩] ∧
    [(⟨.solution, .openai⟩ : NetCall)] ≠ [] := by
  exact ⟨rfl, by decide⟩

/-- C1 (amended): no stage checks the cancellation token itself.  Only the
Gemini variant hands the token to its HTTP layer, which rejects an
already-canceled token without issuing the request (surfacing the generic
Gemini failure message through the provider-level catch); the OpenAI and
Anthropic variants issue their extraction and synthesis network calls even
when the token is already canceled. -/
theorem C1_amended (pi : Json) (resp : List Char) :
    ((generateSolutionsHelper ⟨.gemini, .coding⟩ ⟨true, true, true⟩ (some pi) .before resp).1 =
       [] ∧
     (generateSolutionsHelper ⟨.gemini, .coding⟩ ⟨true, true, true⟩ (some pi) .before resp).2 =
       .error "Failed to generate solution with Gemini API. Please check your API key or try again later.".data) ∧
    (generateSolutionsHelper ⟨.openai, .coding⟩ ⟨true, true, true⟩ (some pi) .before resp).1 =
      [⟨.solution, .openai⟩] ∧
    (generateSolutionsHelper ⟨.anthropic, .coding⟩ ⟨true, true, true⟩ (some pi) .before resp).1 =
      [⟨.solution, .anthropic⟩] ∧
    (extractionStage ⟨.gemini, .coding⟩ ⟨true, true, true⟩ .before resp).1 = [] ∧
    (extractionStage ⟨.openai, .coding⟩ ⟨true, true, true⟩ .before resp).1 =
      [⟨.extraction, .openai⟩] ∧
    (extractionStage ⟨.anthropic, .coding⟩ ⟨true, true, true⟩ .before resp).1 =
      [⟨.extraction, .anthropic⟩] := by
  exact ⟨⟨rfl, rfl⟩, rfl, rfl, rfl, rfl, rfl⟩

/-! ### C2 — starting a second primary pipeline -/

/-- C2, the claim as stated, refuted: starting a second primary pipeline does
**not** cancel the first request's token.  From the fresh state, two
`beginPrimary` steps leave the first controller (id 0) un-aborted; the slot
merely holds the second controller. -/
theorem C2_cex :
    (beginPrimary AbortSlots.init).1 = 0 ∧
    ((beginPrimary (beginPrimary AbortSlots.init).2).2).primary = some 1 ∧
    ((beginPrimary (beginPrimary AbortSlots.init).2).2).aborted = [] := by
  decide

/-- C2 (amended): starting a second primary pipeline merely overwrites the
stored controller without aborting the first token, so both requests stay
active; a subsequent `cancelOngoingRequests` aborts only the second token;
and once the first run settles, its `finally` clears the shared slot — then
holding the second run's controller — so cancellation afterwards cancels
nothing at all, and the first run's settlement is free to overwrite the
second run's state. -/
theorem C2_amended (s : AbortSlots)
    (h1 : s.nextId ∉ s.aborted) (h2 : s.extra = none) :
    (beginPrimary (beginPrimary s).2).2.primary = some (s.nextId + 1) ∧
    s.nextId ∉ (beginPrimary (beginPrimary s).2).2.aborted ∧
    (cancelOngoingRequests (beginPrimary (beginPrimary s).2).2).1.aborted =
      (s.nextId + 1) :: s.aborted ∧
    (cancelOngoingRequests (finishPrimary (beginPrimary (beginPrimary s).2).2)).2.1 = false ∧
    (cancelOngoingRequests (finishPrimary (beginPrimary (beginPrimary s).2).2)).2.2 = [] := by
  refine ⟨rfl, h1, ?_, ?_, ?_⟩ <;>
    simp [beginPrimary, finishPrimary, cancelOngoingRequests, h2]

/-- Witness: C2_amended from the fresh state. -/
theorem C2_amended_witness :
    (beginPrimary (beginPrimary AbortSlots.init).2).2.primary = some 1 ∧
    (cancelOngoingRequests (beginPrimary (beginPrimary AbortSlots.init).2).2).1.aborted =
      [1] := by
  have h := C2_amended AbortSlots.init (by decide) rfl
  exact ⟨h.1, h.2.2.1⟩

/-! ### C3 — reporting of canceled runs -/

/-- C3, the claim as stated, refuted: a primary run whose Gemini extraction
request is aborted by the cancellation token settles through the user-facing
error path — the provider-level catch turns the cancellation into the generic
Gemini failure message, which the orchestrator then classifies as
`API_KEY_INVALID` — and the distinct reset signal `NO_SCREENSHOTS` is never
emitted by the run. -/
theorem C3_cex :
    primaryRun ⟨.gemini, .coding⟩ ⟨true, true, true⟩ .during .no "r".data "r".data =
      ([.initialStart, .processingStatus, .apiKeyInvalid], .queue,
       [⟨.extraction, .gemini⟩]) ∧
    Event.noScreenshots ∉
      ([.initialStart, .processingStatus, .apiKeyInvalid] : List Event) := by
  exact ⟨rfl, by decide⟩

/-- C3 (amended): a canceled pipeline run is reported through the same
user-facing error events as failures — a Gemini cancellation during either
stage is swallowed into the generic Gemini failure message and classified as
`API_KEY_INVALID` — with no reset signal among the run's events; the distinct
no-op/reset signal (`NO_SCREENSHOTS`) is emitted only by
`cancelOngoingRequests` itself, exactly when a live token was aborted. -/
theorem C3_amended (respE respS : List Char) (s : AbortSlots) (id : Nat)
    (hs : s.primary = some id) :
    ((primaryRun ⟨.gemini, .coding⟩ ⟨true, true, true⟩ .during .no respE respS).1 =
       [.initialStart, .processingStatus, .apiKeyInvalid] ∧
     Event.noScreenshots ∉
       (primaryRun ⟨.gemini, .coding⟩ ⟨true, true, true⟩ .during .no respE respS).1) ∧
    (primaryRun ⟨.gemini, .coding⟩ ⟨true, true, true⟩ .no .before
       "\x7b\"problem_statement\":\"s\"\x7d".data respS).1 =
      [.initialStart, .processingStatus, .processingStatus, .problemExtracted,
       .apiKeyInvalid] ∧
    (cancelOngoingRequests s).2.2 = [.noScreenshots] ∧
    (cancelOngoingRequests AbortSlots.init).2.2 = [] := by
  refine ⟨⟨rfl, ?_⟩, rfl, ?_, rfl⟩
  · rw [show (primaryRun ⟨.gemini, .coding⟩ ⟨true, true, true⟩ .during .no respE respS).1 =
        [.initialStart, .processingStatus, .apiKeyInvalid] from rfl]
    decide
  · cases hx : s.extra <;> simp [cancelOngoingRequests, hs, hx]

/-- Witness: C3_amended with a live primary token. -/
theorem C3_amended_witness :
    (cancelOngoingRequests ⟨1, some 0, none, []⟩).2.2 = [Event.noScreenshots] :=
  (C3_amended "r".data "r".data ⟨1, some 0, none, []⟩ 0 rfl).2.2.1

/-! ### C4 — view resets on fatal errors -/

/-- C4, the claim as stated, refuted: a debug run that ends with a fatal
error (here: no stored problem info) emits `DEBUG_ERROR` and leaves the view
state machine on `solutions` — the orchestrator does not return it to
`queue`. -/
theorem C4_cex :
    settleSolutionsRun
        (processExtraScreenshotsHelper ⟨.openai, .coding⟩ ⟨true, true, true⟩
          none .no "r".data).2 =
      ([.debugError "No problem info available".data], .solutions, none) ∧
    View.solutions ≠ View.queue := by
  exact ⟨rfl, by decide⟩

/-- C4 (amended): a **primary** run that ends with a fatal error always
returns the view state machine to `queue` — both when the helper returns a
failure result and when an error is thrown — whereas a **debug** run's
failure emits `DEBUG_ERROR` and leaves the view on `solutions`. -/
theorem C4_amended :
    (∀ e : List Char, (settleQueueRun (.error e)).2 = .queue) ∧
    (∀ (b : Bool) (m : List Char), (settleQueueThrown b m).2 = .queue) ∧
    (∀ e : List Char, (settleSolutionsRun (.error e)).1 = [.debugError e] ∧
       (settleSolutionsRun (.error e)).2.1 = .solutions) := by
  refine ⟨?_, ?_, ?_⟩
  · intro e
    rw [settleQueueRun]
    split <;> rfl
  · intro b m
    rw [settleQueueThrown]
    split <;> rfl
  · intro e
    exact ⟨rfl, rfl⟩

end S2P
